import Mathlib

/-!
Verification development for the Tosho manga-aggregation library.

The Rust source is shallowly embedded: pure string manipulation is
translated to Lean functions on `String` / `List Char`; `f64` chapter
numbers are modelled by the inductive `F64` (NaN, ±infinity, and finite
values kept as exact rationals -- decimal-literal parsing and ordering are
exact on this fragment, IEEE rounding is order-preserving and is omitted);
network and DOM extraction are abstracted as explicit oracle parameters;
fallible code returns `Except Err`.
-/

namespace Tosho

/-! ## Character and string utilities -/

/-- Unicode White_Space test, the predicate behind Rust's
`char::is_whitespace` / `str::trim` and the regexes' `\s` class. -/
def isRustWs (c : Char) : Bool :=
  let n := c.toNat
  (9 ≤ n && n ≤ 13) || n = 32 || n = 133 || n = 160 || n = 5760 ||
    (8192 ≤ n && n ≤ 8202) || n = 8232 || n = 8233 || n = 8239 ||
    n = 8287 || n = 12288

/-- UTF-8 byte length of a character list (Rust `str::len`). -/
def byteLen (cs : List Char) : Nat :=
  (cs.map Char.utf8Size).sum

/-- Rust `str::trim`: drop Unicode whitespace from both ends. -/
def trimList (cs : List Char) : List Char :=
  ((cs.dropWhile isRustWs).reverse.dropWhile isRustWs).reverse

/-- `trim` lifted to `String`. -/
def trimStr (s : String) : String :=
  String.mk (trimList s.toList)

/-- Everything before the first occurrence of `sep`
(Rust `s.split(sep).next().unwrap()`). -/
def takeUntil (sep : Char) (cs : List Char) : List Char :=
  cs.takeWhile (fun c => c ≠ sep)

/-- The segment after the last occurrence of `sep`; the whole list when
`sep` does not occur (Rust `s.split(sep).last().unwrap()`). -/
def lastSegGo (sep : Char) (acc : List Char) : List Char → List Char
  | [] => acc
  | c :: cs => if c = sep then lastSegGo sep [] cs else lastSegGo sep (acc ++ [c]) cs

/-- See `lastSegGo`. -/
def lastSeg (sep : Char) (cs : List Char) : List Char :=
  lastSegGo sep [] cs

/-- The text after the last occurrence of `sep`, or `none` when `sep`
does not occur (Rust `s.rfind(sep)` followed by slicing). -/
def afterLastGo (sep : Char) (acc : Option (List Char)) : List Char → Option (List Char)
  | [] => acc
  | c :: cs =>
      if c = sep then afterLastGo sep (some []) cs
      else afterLastGo sep (acc.map (fun a => a ++ [c])) cs

/-- See `afterLastGo`. -/
def afterLast (sep : Char) (cs : List Char) : Option (List Char) :=
  afterLastGo sep none cs

/-- Rust `str::trim_end_matches('/')`: strip every trailing slash. -/
def stripTrailSlashes (s : String) : String :=
  String.mk ((s.toList.reverse.dropWhile (fun c => c = '/')).reverse)

/-- ASCII lowercasing of a string (`str::to_lowercase`; the inputs the
claims exercise are ASCII, so the Unicode extension is not modelled). -/
def lowerStr (s : String) : String :=
  String.mk (s.toList.map Char.toLower)

/-- Rust `format!("{:03}", n)`: decimal, left-padded with zeros to
width 3. -/
def pad3 (n : Nat) : String :=
  let s := toString n
  String.mk (List.replicate (3 - s.length) '0') ++ s

/-- `Display` of `reqwest::StatusCode`: the code followed by its
canonical reason phrase (tabulated for the codes the theorems use). -/
def statusDisplay (s : Nat) : String :=
  if s = 500 then "500 Internal Server Error"
  else if s = 404 then "404 Not Found"
  else if s = 429 then "429 Too Many Requests"
  else toString s

/-- `reqwest::StatusCode::is_success`: 2xx. -/
def is2xx (s : Nat) : Bool :=
  200 ≤ s && s < 300

/-- Rust `Debug` formatting of `Option<u64>` (used by the
`RateLimit` error's `{retry_after:?}`). -/
def optNatDebug : Option Nat → String
  | none => "None"
  | some n => "Some(" ++ toString n ++ ")"

/-! ## `F64`: the model of Rust `f64` chapter numbers -/

/-- Model of the `f64` values reachable as chapter numbers: NaN, the two
infinities, and finite values kept as exact rationals. -/
inductive F64 where
  | nan : F64
  | inf : F64
  | negInf : F64
  | finite (q : ℚ) : F64
deriving DecidableEq, Repr

/-- `f64::partial_cmp`: `none` exactly when an operand is NaN. -/
def F64.pcmp : F64 → F64 → Option Ordering
  | .nan, _ => none
  | _, .nan => none
  | .negInf, .negInf => some .eq
  | .negInf, _ => some .lt
  | _, .negInf => some .gt
  | .inf, .inf => some .eq
  | .inf, _ => some .gt
  | _, .inf => some .lt
  | .finite p, .finite q =>
      some (if p < q then .lt else if q < p then .gt else .eq)

/-- IEEE `<=` on `f64`: false whenever an operand is NaN. -/
def F64.fle (a b : F64) : Bool :=
  match F64.pcmp a b with
  | some .lt => true
  | some .eq => true
  | _ => false

/-- The comparator `|a, b| a.partial_cmp(b).unwrap_or(Ordering::Equal)`
used by both adapters' `sort_by`, turned into the "not greater"
Boolean a stable sort consumes. -/
def F64.rustLe (a b : F64) : Bool :=
  match (F64.pcmp a b).getD Ordering.eq with
  | .gt => false
  | _ => true

/-- Count the multiplicity of the factor `p` in `n` (fuelled; used only
by the display function below). -/
def countFacGo (p : Nat) : Nat → Nat → Nat
  | 0, _ => 0
  | fuel + 1, n => if n ≠ 0 ∧ p ∣ n ∧ 2 ≤ p then countFacGo p fuel (n / p) + 1 else 0

/-- Decimal rendering of a rational with terminating expansion
(Rust `Display` for the `f64` values the code produces: `7.0` prints
as `7`, `12.5` as `12.5`). -/
def displayRat (q : ℚ) : String :=
  if q.den = 1 then toString q.num
  else
    let d2 := countFacGo 2 q.den q.den
    let d5 := countFacGo 5 q.den q.den
    let m := max d2 d5
    let scaled := q.num * (10 : ℤ) ^ m / (q.den : ℤ)
    let mag := scaled.natAbs
    let digits := toString mag
    let digits := String.mk (List.replicate (m + 1 - digits.length) '0') ++ digits
    let intPart := String.mk (digits.toList.take (digits.length - m))
    let fracPart := String.mk (digits.toList.drop (digits.length - m))
    (if q.num < 0 then "-" else "") ++ intPart ++ "." ++ fracPart

/-- Rust `Display` for `f64`, on the model. -/
def displayF64 : F64 → String
  | .nan => "NaN"
  | .inf => "inf"
  | .negInf => "-inf"
  | .finite q => displayRat q

/-- Numeric value of a list of decimal digits. -/
def digitsVal (ds : List Char) : Nat :=
  ds.foldl (fun acc c => acc * 10 + (c.toNat - 48)) 0

/-- Significand and exponent to an exact rational: the digits with the
point dropped, scaled by `10 ^ (e - #fraction digits)` (the scaling is
split on the exponent's sign so that integer-valued results stay in
kernel-computable integer arithmetic). -/
def mkDecimal (neg : Bool) (intDs fracDs : List Char) (e : ℤ) : F64 :=
  let e2 : ℤ := e - fracDs.length
  let m : ℕ := digitsVal (intDs ++ fracDs)
  let mag : ℚ :=
    if 0 ≤ e2 then (((m : ℤ) * 10 ^ e2.toNat : ℤ) : ℚ)
    else (m : ℚ) / ((10 : ℚ) ^ (-e2).toNat)
  .finite (if neg then -mag else mag)

/-- Exponent part of the `f64` grammar: empty, or `[eE][+-]?Digits`
consuming the rest of the input. -/
def parseExpPart (neg : Bool) (intDs fracDs : List Char) : List Char → Option F64
  | [] => some (mkDecimal neg intDs fracDs 0)
  | e :: r =>
      if e = 'e' ∨ e = 'E' then
        let (eneg, r2) :=
          match r with
          | '+' :: t => (false, t)
          | '-' :: t => (true, t)
          | t => (false, t)
        let eds := r2.takeWhile Char.isDigit
        let r3 := r2.dropWhile Char.isDigit
        if eds = [] ∨ r3 ≠ [] then none
        else
          some (mkDecimal neg intDs fracDs
            (if eneg then -(digitsVal eds : ℤ) else (digitsVal eds : ℤ)))
      else none

/-- Significand of the `f64` grammar: `Digits [. Digits?] | . Digits`,
followed by the optional exponent. -/
def parseSignificand (neg : Bool) (s : List Char) : Option F64 :=
  let ds := s.takeWhile Char.isDigit
  let r1 := s.dropWhile Char.isDigit
  match r1 with
  | '.' :: r2 =>
      let fs := r2.takeWhile Char.isDigit
      let r3 := r2.dropWhile Char.isDigit
      if ds = [] ∧ fs = [] then none else parseExpPart neg ds fs r3
  | _ => if ds = [] then none else parseExpPart neg ds [] r1

/-- Rust `f64::from_str` on the model: optional sign, then
case-insensitive `inf`/`infinity`/`nan` or a decimal significand with
optional exponent. Finite values are kept exact (IEEE rounding and
overflow-to-infinity are omitted; both are order-preserving). -/
def parseF64 (s : List Char) : Option F64 :=
  match s with
  | [] => none
  | c :: r =>
    let neg : Bool := if c = '-' then true else false
    let rest := if c = '+' ∨ c = '-' then r else c :: r
    let low := rest.map Char.toLower
    if low = "nan".toList then some .nan
    else if low = "inf".toList ∨ low = "infinity".toList then
      some (if neg then .negInf else .inf)
    else parseSignificand neg rest

/-- `parseF64` on a `String`. -/
def parseF64Str (s : String) : Option F64 :=
  parseF64 s.toList

/-! ## Core data types (`src/types.rs`) and errors (`src/error.rs`) -/

/-- `SortOrder`. -/
inductive SortOrder where
  | relevance
  | updatedAt
  | createdAt
  | title
deriving DecidableEq, Repr

/-- `SearchParams`. -/
structure SearchParams where
  query : String
  limit : Option Nat := none
  offset : Option Nat := none
  include_tags : List String := []
  exclude_tags : List String := []
  sort_by : Option SortOrder := none
deriving DecidableEq, Repr

/-- `Manga` (the optional `sqlx` timestamp fields are feature-gated out). -/
structure Manga where
  id : String
  title : String
  cover_url : Option String
  authors : List String
  description : Option String
  tags : List String
  source_id : String
deriving DecidableEq, Repr

/-- `Chapter` (the optional `sqlx` timestamp field is feature-gated out). -/
structure Chapter where
  id : String
  number : F64
  title : String
  pages : List String
  manga_id : String
  source_id : String
deriving DecidableEq, Repr

/-- `Error` from `src/error.rs`; wrapped foreign errors (`reqwest`,
`io`, `serde_json`, `image`, `Join`) are modelled by their display
message. -/
inductive Err where
  | network (msg : String)
  | parse (msg : String)
  | source (src : String) (message : String)
  | notFound (msg : String)
  | rateLimit (retryAfter : Option Nat)
  | io (msg : String)
  | json (msg : String)
  | image (msg : String)
  | other (msg : String)
deriving DecidableEq, Repr

instance {ε α : Type} [DecidableEq ε] [DecidableEq α] : DecidableEq (Except ε α) :=
  fun a b =>
    match a, b with
    | .ok x, .ok y =>
        if h : x = y then isTrue (by rw [h]) else isFalse (by intro hh; cases hh; exact h rfl)
    | .error x, .error y =>
        if h : x = y then isTrue (by rw [h]) else isFalse (by intro hh; cases hh; exact h rfl)
    | .ok _, .error _ => isFalse (by intro hh; cases hh)
    | .error _, .ok _ => isFalse (by intro hh; cases hh)

/-- The `thiserror` `Display` strings of `Error`. -/
def Err.display : Err → String
  | .network m => "Network error: " ++ m
  | .parse m => "Parse error: " ++ m
  | .source s m => "Source error [" ++ s ++ "]: " ++ m
  | .notFound m => "Not found: " ++ m
  | .rateLimit r => "Rate limited, retry after " ++ optNatDebug r ++ " seconds"
  | .io m => "IO error: " ++ m
  | .json m => "JSON error: " ++ m
  | .image m => "Image error: " ++ m
  | .other m => m

/-! ## Download helpers (`src/download.rs`) -/

/-- The characters `sanitize_filename` replaces. -/
def invalidFileChars : List Char :=
  ['/', '\\', ':', '*', '?', '"', '<', '>', '|']

/-- Rust `String::truncate cs 200` as used by `sanitize_filename`:
identity when the byte length is within the bound, the prefix of byte
length exactly `n` when the cut lands on a character boundary, and
`none` (a panic in Rust) when the cut falls inside a multi-byte
character. -/
def byteTake (n : Nat) : List Char → Option (List Char)
  | [] => some []
  | c :: cs =>
      if c.utf8Size ≤ n then (byteTake (n - c.utf8Size) cs).map (fun t => c :: t)
      else if n = 0 then some []
      else none

/-- `sanitize_filename` on a character list: replace the invalid
characters by `_`, trim, truncate to 200 bytes (possibly panicking,
hence `Option`), and fall back to `"untitled"` when empty. -/
def sanitizeList (cs : List Char) : Option (List Char) :=
  let replaced := cs.map (fun c => if c ∈ invalidFileChars then '_' else c)
  let trimmed := trimList replaced
  (byteTake 200 trimmed).map (fun t => if t = [] then "untitled".toList else t)

/-- `sanitize_filename` on `String`. -/
def sanitizeFilename (s : String) : Option String :=
  (sanitizeList s.toList).map String.mk

/-- `extract_extension`: strip the query and fragment, take the last
path segment, and accept the text after its last dot when 1–10
characters long, lowercased. -/
def extractExtensionL (cs : List Char) : Option (List Char) :=
  let cleanUrl := takeUntil '#' (takeUntil '?' cs)
  let path := lastSeg '/' cleanUrl
  match afterLast '.' path with
  | some ext =>
      if ext ≠ [] ∧ ext.length ≤ 10 then some (ext.map Char.toLower) else none
  | none => none

/-- `extract_extension` on `String`. -/
def extractExtension (s : String) : Option String :=
  (extractExtensionL s.toList).map String.mk

/-! ## The stable sort behind `sort_by`

Rust's `slice::sort_by` is a stable sort; every stable sort computes the
same output whenever the comparator is a total preorder, which holds for
all chapter lists without NaN numbers. The insertion sort below is that
model (for comparators that are not total preorders Rust documents the
output order as unspecified; the theorems that touch that case are
insensitive to the permutation chosen). -/

/-- All ways to insert `a` into a list (helper for the permutation
enumeration below). -/
def insertsEverywhere (a : α) : List α → List (List α)
  | [] => [[a]]
  | b :: t => (a :: b :: t) :: (insertsEverywhere a t).map (fun l => b :: l)

/-- All permutations of a list (structural, so that it evaluates inside
the kernel; used to show counterexamples are insensitive to the
unspecified order a non-total comparator leaves a Rust sort in). -/
def allPerms : List α → List (List α)
  | [] => [[]]
  | a :: t => ((allPerms t).map (insertsEverywhere a)).flatten

/-- Stable insertion of `a` into `l`: `a` goes before the first element
it is `le`-below-or-equal. -/
def insertLe (le : α → α → Bool) (a : α) : List α → List α
  | [] => [a]
  | b :: t => if le a b then a :: b :: t else b :: insertLe le a t

/-- Stable sort by a Boolean comparator. -/
def sortByLe (le : α → α → Bool) : List α → List α
  | [] => []
  | a :: t => insertLe le a (sortByLe le t)

/-- The chapter comparator used by both adapters:
`a.number.partial_cmp(&b.number).unwrap_or(Ordering::Equal)`. -/
def chapterLe (a b : Chapter) : Bool :=
  F64.rustLe a.number b.number

/-- `chapters.sort_by(...)` as used by both adapters. -/
def sortChapters (l : List Chapter) : List Chapter :=
  sortByLe chapterLe l

/-- Ascending order of the `number` field under IEEE `<=`
(what "sorted by `number` ascending" means on `f64`): every adjacent
pair satisfies `a.number <= b.number`, which in particular fails on any
list containing NaN next to anything. -/
def sortedByNumber : List Chapter → Bool
  | [] => true
  | [_] => true
  | a :: b :: t => F64.fle a.number b.number && sortedByNumber (b :: t)

/-! ## Source registry and fan-out search (`src/source.rs`) -/

/-- An adapter, restricted to the surface the registry claims need:
its stable id and its `search` behaviour (an explicit function standing
for the adapter's remote interaction). -/
structure SearchSource where
  id : String
  search : SearchParams → Except Err (List Manga)

/-- `Sources`: the adapter vector plus the `id → index` map, modelled
as an association list updated in place. -/
structure SourcesCol where
  sources : List SearchSource
  by_id : List (String × Nat)

/-- `HashMap::insert`: replace the value at an existing key, otherwise
append the binding. -/
def assocInsert (k : String) (v : Nat) : List (String × Nat) → List (String × Nat)
  | [] => [(k, v)]
  | (k2, v2) :: t => if k2 = k then (k, v) :: t else (k2, v2) :: assocInsert k v t

/-- `HashMap::get`. -/
def assocGet (k : String) : List (String × Nat) → Option Nat
  | [] => none
  | (k2, v2) :: t => if k2 = k then some v2 else assocGet k t

/-- `Sources::new`. -/
def SourcesCol.new : SourcesCol :=
  { sources := [], by_id := [] }

/-- `Sources::add`: push the adapter and index it by id. -/
def SourcesCol.add (col : SourcesCol) (s : SearchSource) : SourcesCol :=
  { sources := col.sources ++ [s]
    by_id := assocInsert s.id col.sources.length col.by_id }

/-- `Sources::get`. -/
def SourcesCol.get (col : SourcesCol) (id : String) : Option SearchSource :=
  (assocGet id col.by_id).bind (fun i => col.sources.get? i)

/-- `Sources::list_ids`. -/
def SourcesCol.listIds (col : SourcesCol) : List String :=
  col.sources.map (fun s => s.id)

/-- `Sources::len`. -/
def SourcesCol.size (col : SourcesCol) : Nat :=
  col.sources.length

/-- `Sources::search_all_grouped`: query every adapter with a clone of
the params, stamp `source_id` on each resulting manga, and tag each
outcome with the adapter id, in registration order. -/
def searchAllGrouped (col : SourcesCol) (params : SearchParams) :
    List (String × Except Err (List Manga)) :=
  col.sources.map (fun s =>
    (s.id, (s.search params).map (fun mg => mg.map (fun m => { m with source_id := s.id }))))

/-- The accumulation loop of `search_all_flat`. -/
def flatFold (acc : List Manga × List String) :
    List (String × Except Err (List Manga)) → List Manga × List String
  | [] => acc
  | (sid, r) :: t =>
      match r with
      | .ok mg => flatFold (acc.1 ++ mg, acc.2) t
      | .error e => flatFold (acc.1, acc.2 ++ [sid ++ ": " ++ e.display]) t

/-- `Sources::search_all_flat`: concatenate the successes; error with
`Other("All sources failed: …")` exactly when the concatenation is
empty and at least one adapter failed. -/
def searchAllFlat (col : SourcesCol) (params : SearchParams) : Except Err (List Manga) :=
  let grouped := searchAllGrouped col params
  let acc := flatFold ([], []) grouped
  if acc.1 = [] ∧ acc.2 ≠ [] then
    .error (.other ("All sources failed: " ++ String.intercalate ", " acc.2))
  else
    .ok acc.1

/-- Spec-side reading of the fan-out: the successful outputs,
concatenated in registration order. -/
def flatSuccesses : List (String × Except Err (List Manga)) → List Manga
  | [] => []
  | (_, .ok mg) :: t => mg ++ flatSuccesses t
  | (_, .error _) :: t => flatSuccesses t

/-- Spec-side reading of the fan-out: one formatted entry per failing
adapter, in registration order. -/
def failEntries : List (String × Except Err (List Manga)) → List String
  | [] => []
  | (_, .ok _) :: t => failEntries t
  | (sid, .error e) :: t => (sid ++ ": " ++ e.display) :: failEntries t

/-! ## `HttpClient::get` (`src/net/mod.rs`) -/

/-- Outcome of one HTTP send: a response with status, `Retry-After`
header (modelled post-parse: `some k` when the header is present and
numeric) and body bytes, or a transport error. -/
inductive NetResp where
  | resp (status : Nat) (retryAfter : Option Nat) (body : List Nat)
  | transport (msg : String)

/-- Observable trace of one `HttpClient::get` call: how many requests
were issued, the backoff sleeps (in seconds, in order), and the final
result. -/
structure GetTrace where
  requests : Nat
  sleeps : List Nat
  result : Except Err (List Nat)
deriving DecidableEq, Repr

/-- The retry loop of `HttpClient::get`. `responses i` is the server's
answer to the i-th request (0-based); `attempts` is the Rust `attempts`
counter. Terminates because each retry increments `attempts` under
`attempts < maxRetries`. -/
def httpGetGo (sid : String) (maxRetries : Nat) (responses : Nat → NetResp)
    (attempts reqs : Nat) (sleeps : List Nat) : GetTrace :=
  match responses reqs with
  | .resp st ra body =>
      if is2xx st then ⟨reqs + 1, sleeps, .ok body⟩
      else if st = 429 then
        if h : attempts < maxRetries then
          httpGetGo sid maxRetries responses (attempts + 1) (reqs + 1)
            (sleeps ++ [2 ^ (attempts + 1)])
        else ⟨reqs + 1, sleeps, .error (.rateLimit ra)⟩
      else ⟨reqs + 1, sleeps, .error (.source sid ("HTTP " ++ statusDisplay st))⟩
  | .transport msg =>
      if h : attempts < maxRetries then
        httpGetGo sid maxRetries responses (attempts + 1) (reqs + 1) (sleeps ++ [1])
      else ⟨reqs + 1, sleeps, .error (.network msg)⟩
termination_by maxRetries - attempts

/-- `HttpClient::get`, as a trace over the response oracle. -/
def httpGet (sid : String) (maxRetries : Nat) (responses : Nat → NetResp) : GetTrace :=
  httpGetGo sid maxRetries responses 0 0 []

/-! ## `download_chapter` (`src/source.rs` default and the KissManga
override, `src/sources/kissmanga.rs`)

The filesystem is modelled by the returned list of `(path, bytes)`
writes (directory creation and file writes are assumed to succeed; the
body-read step of a successful response is not modelled as failing).
`Path::join` is string concatenation with `/`. -/

/-- Outcome of one page GET. -/
inductive FetchOut where
  | resp (status : Nat) (body : List Nat)
  | transport (msg : String)

/-- Extension inference shared by both download loops:
`url.split('?').next().and_then(|url| url.split('.').last())
.filter(|ext| ext.len() <= 4).unwrap_or("jpg")`. -/
def dlExtOf (url : String) : String :=
  let cand := lastSeg '.' (takeUntil '?' url.toList)
  if byteLen cand ≤ 4 then String.mk cand else "jpg"

/-- Chapter directory of the default `download_chapter`:
`output_dir.join(format!("chapter_{}", chapter_id))`, the id used
verbatim. -/
def defaultChapterDir (outputDir chapterId : String) : String :=
  outputDir ++ "/chapter_" ++ chapterId

/-- Chapter directory of the KissManga override:
`output_dir.join(format!("chapter_{}", chapter_id.replace('/', "_")))`. -/
def kissChapterDir (outputDir chapterId : String) : String :=
  outputDir ++ "/chapter_" ++
    String.mk (chapterId.toList.map (fun c => if c = '/' then '_' else c))

/-- Page loop of the default `Source::download_chapter`: any non-2xx
response or transport error aborts the whole download with a `Parse`
error. -/
def dlLoopDefault (fetch : String → FetchOut) (chapterDir : String) :
    List String → Nat → Except Err (List (String × List Nat))
  | [], _ => .ok []
  | url :: rest, i =>
      match fetch url with
      | .transport msg =>
          .error (.parse ("Failed to download page " ++ toString (i + 1) ++ ": " ++ msg))
      | .resp st body =>
          if is2xx st then
            let filename := "page_" ++ pad3 (i + 1) ++ "." ++ dlExtOf url
            (dlLoopDefault fetch chapterDir rest (i + 1)).map
              (fun files => (chapterDir ++ "/" ++ filename, body) :: files)
          else
            .error (.parse ("Failed to download page " ++ toString (i + 1) ++ ": HTTP " ++
              statusDisplay st))

/-- The default `Source::download_chapter`: the `get_pages` outcome is
passed in explicitly; returns the chapter directory and the files
written. The directory is `output_dir/chapter_<id>` with the id used
verbatim. -/
def defaultDownloadChapter (sourceId : String) (pagesRes : Except Err (List String))
    (fetch : String → FetchOut) (outputDir chapterId : String) :
    Except Err (String × List (String × List Nat)) :=
  match pagesRes with
  | .error e => .error e
  | .ok pages =>
      if pages = [] then .error (.source sourceId "No pages found for chapter")
      else
        let chapterDir := defaultChapterDir outputDir chapterId
        (dlLoopDefault fetch chapterDir pages 0).map (fun files => (chapterDir, files))

/-- Page loop of `KissMangaSource::download_chapter_with_headers`: a
non-2xx response is skipped (`continue`), a transport error still
aborts. -/
def dlLoopKiss (fetch : String → FetchOut) (chapterDir : String) :
    List String → Nat → Except Err (List (String × List Nat))
  | [], _ => .ok []
  | url :: rest, i =>
      match fetch url with
      | .transport msg =>
          .error (.parse ("Failed to download page " ++ toString (i + 1) ++ ": " ++ msg))
      | .resp st body =>
          if is2xx st then
            let filename := "page_" ++ pad3 (i + 1) ++ "." ++ dlExtOf url
            (dlLoopKiss fetch chapterDir rest (i + 1)).map
              (fun files => (chapterDir ++ "/" ++ filename, body) :: files)
          else
            dlLoopKiss fetch chapterDir rest (i + 1)

/-- `KissMangaSource::download_chapter` (via
`download_chapter_with_headers`): like the default but the directory
name sanitizes `/` to `_` in the chapter id, and non-2xx pages are
skipped. -/
def kissDownloadChapter (pagesRes : Except Err (List String))
    (fetch : String → FetchOut) (outputDir chapterId : String) :
    Except Err (String × List (String × List Nat)) :=
  match pagesRes with
  | .error e => .error e
  | .ok pages =>
      if pages = [] then .error (.source "kmg" "No pages found for chapter")
      else
        let chapterDir := kissChapterDir outputDir chapterId
        (dlLoopKiss fetch chapterDir pages 0).map (fun files => (chapterDir, files))

/-- Spec-side reading of the KissManga loop: enumerate the pages, keep
exactly those whose response is 2xx, each under its own 1-based index. -/
def kissExpectedFiles (fetch : String → FetchOut) (chapterDir : String) :
    List String → Nat → List (String × List Nat)
  | [], _ => []
  | url :: rest, i =>
      match fetch url with
      | .resp st body =>
          if is2xx st then
            (chapterDir ++ "/" ++ ("page_" ++ pad3 (i + 1) ++ "." ++ dlExtOf url), body) ::
              kissExpectedFiles fetch chapterDir rest (i + 1)
          else kissExpectedFiles fetch chapterDir rest (i + 1)
      | .transport _ => kissExpectedFiles fetch chapterDir rest (i + 1)

/-- Index and status of the first page whose response is not 2xx. -/
def firstNon2xx (fetch : String → FetchOut) : List String → Nat → Option (Nat × Nat)
  | [], _ => none
  | url :: rest, i =>
      match fetch url with
      | .resp st _ => if is2xx st then firstNon2xx fetch rest (i + 1) else some (i, st)
      | .transport _ => firstNon2xx fetch rest (i + 1)

/-! ## MangaDex adapter (`src/sources/mangadex.rs`)

JSON maps (`HashMap<String, String>`) are modelled as association
lists in iteration order. -/

/-- Lookup in a locale map. -/
def mapGet (k : String) : List (String × String) → Option String
  | [] => none
  | (k2, v) :: t => if k2 = k then some v else mapGet k t

/-- `MangaDexRelationship` together with its attributes. -/
structure MDRelationship where
  relType : String
  name : Option String := none
  fileName : Option String := none

/-- `MangaDexTag` (its `attributes.name` locale map). -/
structure MDTag where
  name : List (String × String)

/-- `MangaDexMangaData` restricted to the fields `map_manga_data_to_manga`
reads (`alt_titles`, `status` and `updated_at` are carried but unused). -/
structure MDMangaData where
  id : String
  title : List (String × String)
  altTitles : List (List (String × String)) := []
  description : List (String × String)
  status : String := ""
  tags : List MDTag := []
  updatedAt : Option String := none
  relationships : List MDRelationship := []

/-- `MangaDexSource::extract_best_title`: walk the priority languages,
returning the first trimmed non-empty value; otherwise the first
trimmed non-empty value of the map; otherwise `"Unknown Title"`. -/
def extractBestTitle (m : List (String × String)) : String :=
  match ["en", "en-us", "ja", "ja-ro"].findSome? (fun lang =>
      (mapGet lang m).bind (fun t =>
        if trimStr t = "" then none else some (trimStr t))) with
  | some t => t
  | none =>
      (((m.map Prod.snd).find? (fun t => ¬ trimStr t = "")).map trimStr).getD
        "Unknown Title"

/-- `MangaDexSource::extract_cover_filename`. -/
def mdExtractCoverFilename (d : MDMangaData) : Option String :=
  (d.relationships.find? (fun r => r.relType = "cover_art")).bind (fun r => r.fileName)

/-- `MangaDexSource::map_manga_data_to_manga`. -/
def mdMapManga (d : MDMangaData) : Manga :=
  let title := extractBestTitle d.title
  let description := extractBestTitle d.description
  let authors := (d.relationships.filter
      (fun r => r.relType = "author" ∨ r.relType = "artist")).filterMap (fun r => r.name)
  let tags := d.tags.map (fun t => extractBestTitle t.name)
  let cover_url := (mdExtractCoverFilename d).map (fun fn =>
    "https://uploads.mangadex.org/covers/" ++ d.id ++ "/" ++ fn)
  { id := d.id
    title := title
    cover_url := cover_url
    authors := authors
    description :=
      if description = "" ∨ description = "Unknown Title" then none else some description
    tags := tags
    source_id := "mgd" }

/-- Spec-side title selection, written from the specification's words:
the values of the preference languages, trimmed, first non-empty one;
falling back to the map's first non-empty trimmed value; falling back
to `"Unknown Title"`. -/
def specBestTitle (m : List (String × String)) : String :=
  let priPick := ((["en", "en-us", "ja", "ja-ro"].filterMap
      (fun lang => mapGet lang m)).map trimStr).find? (fun t => t ≠ "")
  let anyPick := ((m.map Prod.snd).map trimStr).find? (fun t => t ≠ "")
  ((priPick.orElse (fun _ => anyPick)).getD "Unknown Title")

/-- `MangaDexChapterAttributes`. -/
structure MDChapterAttributes where
  title : Option String := none
  chapter : Option String := none
  volume : Option String := none
  publishAt : Option String := none
  translatedLanguage : String := ""

/-- `MangaDexChapterData` (its relationships are not read by the
chapter mapping). -/
structure MDChapterData where
  id : String
  attributes : MDChapterAttributes

/-- `MangaDexChapterListResponse`. -/
structure MDChapterListResponse where
  data : List MDChapterData
  total : Nat
  limit : Nat
  offset : Nat

/-- `MangaDexSource::map_chapter_data_to_chapter`: parse
`attributes.chapter` as `f64` (0.0 fallback), synthesize
`"Chapter N"` when the title is absent. -/
def mdMapChapter (data : MDChapterData) (mangaId : String) : Option Chapter :=
  let chapterNum := (data.attributes.chapter.bind (fun ch => parseF64Str ch)).getD
    (F64.finite 0)
  let title := data.attributes.title.getD ("Chapter " ++ displayF64 chapterNum)
  some
    { id := data.id
      number := chapterNum
      title := title
      pages := []
      manga_id := mangaId
      source_id := "mgd" }

/-- The pagination loop of `MangaDexSource::fetch_all_chapters`.
`feed offset` is the decoded response of the feed endpoint at that
offset; `fuel` bounds the iterations (`none` models the Rust loop not
terminating, which happens when a response reports `limit = 0` and a
larger `total`). -/
def mdFetchGo (feed : Nat → Except Err MDChapterListResponse) (mangaId : String) :
    Nat → Nat → List Chapter → Option (Except Err (List Chapter))
  | 0, _, _ => none
  | fuel + 1, offset, acc =>
      match feed offset with
      | .error e => some (.error e)
      | .ok resp =>
          let acc2 := acc ++ resp.data.filterMap (fun cd => mdMapChapter cd mangaId)
          if resp.total ≤ offset + resp.limit then some (.ok acc2)
          else mdFetchGo feed mangaId fuel (offset + resp.limit) acc2

/-- `MangaDexSource::fetch_all_chapters` =
`MangaDexSource::get_chapters`: paginate, then sort by number with the
NaN-defaulting comparator. -/
def mdFetchAllChapters (fuel : Nat) (feed : Nat → Except Err MDChapterListResponse)
    (mangaId : String) : Option (Except Err (List Chapter)) :=
  match mdFetchGo feed mangaId fuel 0 [] with
  | none => none
  | some (.error e) => some (.error e)
  | some (.ok chs) => some (.ok (sortChapters chs))

/-- `MangaDexPagesResponse` (`at-home/server`). -/
structure MDPagesResponse where
  baseUrl : String
  hash : String
  data : List String
  dataSaver : List String

/-- The response-processing part of `MangaDexSource::get_pages` (the two
preceding fetches are abstracted): validate `hash` and `baseUrl`,
build `/data/` URLs, falling back to `/data-saver/`, and fail with
`NotFound` when both lists are empty. -/
def mdGetPagesFromResp (chapterId : String) (resp : MDPagesResponse) :
    Except Err (List String) :=
  if resp.hash = "" then .error (.parse "Chapter hash is empty")
  else if resp.baseUrl = "" then .error (.parse "Base URL is empty")
  else
    let pageUrls :=
      if ¬ resp.data = [] then
        resp.data.map (fun fn =>
          stripTrailSlashes resp.baseUrl ++ "/data/" ++ resp.hash ++ "/" ++ fn)
      else if ¬ resp.dataSaver = [] then
        resp.dataSaver.map (fun fn =>
          stripTrailSlashes resp.baseUrl ++ "/data-saver/" ++ resp.hash ++ "/" ++ fn)
      else []
    if pageUrls = [] then
      .error (.notFound ("No pages found for chapter " ++ chapterId))
    else .ok pageUrls

/-- Spec-side reading of the page resolution (amended: the base URL is
used with trailing slashes stripped): reject empty `baseUrl`/`hash`
with `Parse`, prefer `data`, fall back to `dataSaver`, `NotFound` when
both are empty. -/
def mdPagesSpec (chapterId : String) (resp : MDPagesResponse) : Except Err (List String) :=
  if resp.hash = "" ∨ resp.baseUrl = "" then
    .error (.parse (if resp.hash = "" then "Chapter hash is empty" else "Base URL is empty"))
  else
    match resp.data, resp.dataSaver with
    | [], [] => .error (.notFound ("No pages found for chapter " ++ chapterId))
    | [], fns@(_ :: _) =>
        .ok (fns.map (fun fn =>
          stripTrailSlashes resp.baseUrl ++ "/data-saver/" ++ resp.hash ++ "/" ++ fn))
    | fns@(_ :: _), _ =>
        .ok (fns.map (fun fn =>
          stripTrailSlashes resp.baseUrl ++ "/data/" ++ resp.hash ++ "/" ++ fn))

/-! ## KissManga adapter (`src/sources/kissmanga.rs`)

The HTML selector machinery is abstracted: `get_chapters` is modelled
over the list of `(href, trimmed anchor text)` pairs produced by the
first selector that matched anything. The four chapter-number regexes
are modelled directly (leftmost match, greedy quantifiers). -/

/-- `str::starts_with` (via the character lists; the prefixes involved
are ASCII). -/
def strStarts (p s : String) : Bool :=
  p.toList.isPrefixOf s.toList

/-- `str::strip_prefix` (the prefixes used are ASCII, so character
count equals byte count). -/
def stripPre (p s : String) : Option String :=
  if strStarts p s then some (String.mk (s.toList.drop p.toList.length)) else none

/-- The chapter-id normalization inside `KissMangaSource::get_chapters`:
full URLs lose the `https?://kissmanga.in` host, paths are kept, bare
slugs get a leading slash. -/
def kmChapterId (href : String) : String :=
  if strStarts "http" href then
    (((stripPre "https://kissmanga.in" href).orElse
        (fun _ => stripPre "http://kissmanga.in" href))).getD href
  else if strStarts "/" href then href
  else "/" ++ href

/-- Greedy capture of `\d+(?:\.\d+)?` starting at a digit: the maximal
digit run, optionally followed by `.` and a further non-empty digit
run. -/
def grabNum (s : List Char) : List Char :=
  let ds := s.takeWhile Char.isDigit
  match s.dropWhile Char.isDigit with
  | e :: r2 =>
      if e = '.' then
        let fs := r2.takeWhile Char.isDigit
        if fs = [] then ds else ds ++ '.' :: fs
      else ds
  | [] => ds

/-- Leftmost match of the bare `(\d+(?:\.\d+)?)` regex. -/
def scanNum : List Char → Option (List Char)
  | [] => none
  | c :: rest => if c.isDigit then some (grabNum (c :: rest)) else scanNum rest

/-- `\s*(\d+(?:\.\d+)?)`: skip whitespace, then require a digit. -/
def wsThenNum (s : List Char) : Option (List Char) :=
  match s.dropWhile isRustWs with
  | [] => none
  | c :: rest => if c.isDigit then some (grabNum (c :: rest)) else none

/-- Case-insensitive literal prefix test (ASCII lowering, matching the
`(?i)` flag on the ASCII keywords involved). -/
def isPreCI (p : String) (s : List Char) : Bool :=
  (p.toList).isPrefixOf (s.map Char.toLower)

/-- One attempt of `(?i)(?:chapter|ch\.?)\s*(\d+(?:\.\d+)?)` at a fixed
position: the alternation tries `chapter`, then `ch` with a greedy
optional dot. -/
def kw1At (s : List Char) : Option (List Char) :=
  match (if isPreCI "chapter" s then wsThenNum (s.drop 7) else none) with
  | some cap => some cap
  | none =>
      if isPreCI "ch" s then
        match s.drop 2 with
        | e :: r =>
            if e = '.' then
              match wsThenNum r with
              | some cap => some cap
              | none => wsThenNum ('.' :: r)
            else wsThenNum (e :: r)
        | [] => wsThenNum []
      else none

/-- Leftmost match of regex 1 / regex 3's keyword part: scan start
positions left to right. -/
def kwScan (tryAt : List Char → Option (List Char)) : List Char → Option (List Char)
  | [] => none
  | s@(_ :: rest) =>
      match tryAt s with
      | some cap => some cap
      | none => kwScan tryAt rest

/-- `-?(\d+(?:\.\d+)?)` with the greedy optional dash. -/
def dashNum (s : List Char) : Option (List Char) :=
  match s with
  | c :: r =>
      if c = '-' then
        (match r with
        | d :: _ => if d.isDigit then some (grabNum r) else none
        | [] => none)
      else if c.isDigit then some (grabNum (c :: r)) else none
  | [] => none

/-- One attempt of `(?i)(?:chapter|ch)-?(\d+(?:\.\d+)?)` at a fixed
position. -/
def kw3At (s : List Char) : Option (List Char) :=
  match (if isPreCI "chapter" s then dashNum (s.drop 7) else none) with
  | some cap => some cap
  | none => if isPreCI "ch" s then dashNum (s.drop 2) else none

/-- `KissMangaSource::extract_chapter_number`: the four regexes in
order; the first regex that matches decides the result (its capture is
parsed as `f64`, and a parse failure is returned as `None` without
falling through, mirroring the early `return`s). -/
def extractChapterNumber (title chapterId : String) : Option F64 :=
  let titleLower := (lowerStr title).toList
  match kwScan kw1At titleLower with
  | some cap => parseF64 cap
  | none =>
  match scanNum titleLower with
  | some cap => parseF64 cap
  | none =>
  match kwScan kw3At chapterId.toList with
  | some cap => parseF64 cap
  | none =>
  match scanNum chapterId.toList with
  | some cap => parseF64 cap
  | none => none

/-- The chapter-construction loop of `KissMangaSource::get_chapters`
over the extracted `(href, text)` items, 0-based discovery index. -/
def kmBuildChapters (mangaId : String) : List (String × String) → Nat → List Chapter
  | [], _ => []
  | (href, title) :: rest, i =>
      let cid := kmChapterId href
      let number := (extractChapterNumber title cid).getD (F64.finite ((i + 1 : ℕ) : ℚ))
      { id := cid
        number := number
        title := if title = "" then "Chapter " ++ displayF64 number else title
        pages := []
        manga_id := mangaId
        source_id := "kmg" } :: kmBuildChapters mangaId rest (i + 1)

/-- `KissMangaSource::get_chapters` over the extracted items: build,
then sort by number. -/
def kmGetChapters (items : List (String × String)) (mangaId : String) : List Chapter :=
  sortChapters (kmBuildChapters mangaId items 0)

/-! ## Concrete scenario inputs used by witnesses and counterexamples -/

/-- An adapter that succeeds with an empty result list. -/
def c1okSrc : SearchSource := ⟨"a", fun _ => .ok []⟩

/-- An adapter that fails with a network error. -/
def c1badSrc : SearchSource := ⟨"b", fun _ => .error (.network "boom")⟩

/-- A registry holding the two adapters above. -/
def c1col : SourcesCol := (SourcesCol.new.add c1okSrc).add c1badSrc

/-- A plain query. -/
def c1params : SearchParams := { query := "q" }

/-- Two page URLs for the download scenarios. -/
def c2Pages : List String := ["https://x/a.png?q=1", "https://x/b.jpeg"]

/-- Page fetch oracle where page 1 answers 500 and every other URL
answers 200. -/
def c2Fetch : String → FetchOut := fun u =>
  if u = "https://x/a.png?q=1" then .resp 500 [1] else .resp 200 [2]

/-- Feed response carrying chapter numbers `2`, `nan`, `1`. -/
def c3Feed : Nat → Except Err MDChapterListResponse := fun _ =>
  .ok ⟨[⟨"a", { title := some "ta", chapter := some "2" }⟩,
        ⟨"b", { title := some "tb", chapter := some "nan" }⟩,
        ⟨"c", { title := some "tc", chapter := some "1" }⟩], 3, 500, 0⟩

/-- What `fetch_all_chapters` produces on `c3Feed` (the NaN element is
left between 2 and 1 by the NaN-defaulting comparator). -/
def c3Out : List Chapter :=
  [⟨"a", .finite 2, "ta", [], "m", "mgd"⟩,
   ⟨"b", .nan, "tb", [], "m", "mgd"⟩,
   ⟨"c", .finite 1, "tc", [], "m", "mgd"⟩]

/-- A well-behaved one-page feed for the witness. -/
def c3wFeed : Nat → Except Err MDChapterListResponse := fun _ =>
  .ok ⟨[⟨"a", { title := some "ta", chapter := some "2" }⟩,
        ⟨"c", { title := some "tc", chapter := some "1" }⟩], 2, 500, 0⟩

/-- What `fetch_all_chapters` produces on `c3wFeed`. -/
def c3wOut : List Chapter :=
  [⟨"c", .finite 1, "tc", [], "m", "mgd"⟩,
   ⟨"a", .finite 2, "ta", [], "m", "mgd"⟩]

/-- KissManga chapter anchors for the witness. -/
def c3wItems : List (String × String) :=
  [("https://kissmanga.in/x/ch-3/", "Chapter 3"), ("/x/ch-1/", "Chapter 1")]

/-- 199 `a`s then a space and a `b`: sanitizing truncates to 200 bytes,
exposing a trailing space. -/
def c4s : List Char := List.replicate 199 'a' ++ [' ', 'b']

/-- The sanitized form of `c4s`, which still ends in a space. -/
def c4r : List Char := List.replicate 199 'a' ++ [' ']

/-- 67 three-byte characters (201 bytes): the 200-byte cut falls inside
the last character, so Rust's `String::truncate` panics. -/
def c4wide : List Char := List.replicate 67 'あ'

/-- Page fetch oracle where every URL answers 200. -/
def c5Fetch : String → FetchOut := fun _ => .resp 200 [9]

/-- An at-home response whose `baseUrl` carries a trailing slash. -/
def c6resp : MDPagesResponse := ⟨"https://u.test/", "H", ["a.jpg"], []⟩

/-- A server that always answers 429 with `Retry-After: 7`. -/
def c8resp : Nat → NetResp := fun _ => .resp 429 (some 7) []

/-- Two adapters sharing the id `"dup"`. -/
def c10a : SearchSource := ⟨"dup", fun _ => .ok []⟩

/-- A query for the duplicate-id scenario. -/
def c10params : SearchParams := { query := "s" }

/-- See `c10a`; distinguishable by behaviour. -/
def c10b : SearchSource := ⟨"dup", fun _ => .error (.other "x")⟩

end Tosho

namespace Tosho

/-! # Theorems

First the shared helper lemmas, then one theorem per claim (with its
witness or counterexample where required). -/

/-! ## List and character lemmas -/

theorem dropWhile_head_false {p : Char → Bool} :
    ∀ {l : List Char} {c : Char} {t : List Char},
      List.dropWhile p l = c :: t → p c = false := by
  intro l
  induction l with
  | nil => intro c t h; cases h
  | cons a l2 ih =>
      intro c t h
      rw [List.dropWhile_cons] at h
      by_cases hpa : p a = true
      · rw [if_pos hpa] at h
        exact ih h
      · rw [if_neg hpa] at h
        injection h with h1 _
        subst h1
        simpa using hpa

theorem suffix_getLast? {l s : List Char} (h : s <:+ l) (hne : s ≠ []) :
    s.getLast? = l.getLast? := by
  obtain ⟨pre, rfl⟩ := h
  rw [List.getLast?_append]
  cases hgl : s.getLast? with
  | none => exact absurd (List.getLast?_eq_none_iff.mp hgl) hne
  | some x => simp

theorem mem_of_mem_trimList {l : List Char} {a : Char} (h : a ∈ trimList l) : a ∈ l := by
  unfold trimList at h
  rw [List.mem_reverse] at h
  have h2 := (List.dropWhile_sublist (l := (l.dropWhile isRustWs).reverse) isRustWs).mem h
  rw [List.mem_reverse] at h2
  exact (List.dropWhile_sublist isRustWs).mem h2

theorem trimList_getLast?_not_ws {l : List Char} {c : Char}
    (h : (trimList l).getLast? = some c) : isRustWs c = false := by
  unfold trimList at h
  rw [List.getLast?_reverse] at h
  cases heq : ((l.dropWhile isRustWs).reverse).dropWhile isRustWs with
  | nil => rw [heq] at h; cases h
  | cons a t =>
      rw [heq] at h
      injection h with h1
      subst h1
      exact dropWhile_head_false heq

theorem trimList_head?_not_ws {l : List Char} {c : Char}
    (h : (trimList l).head? = some c) : isRustWs c = false := by
  unfold trimList at h
  rw [List.head?_reverse] at h
  have hne : ((l.dropWhile isRustWs).reverse).dropWhile isRustWs ≠ [] := by
    intro hnil
    rw [hnil] at h
    cases h
  rw [suffix_getLast? (List.dropWhile_suffix isRustWs) hne, List.getLast?_reverse] at h
  cases heq : l.dropWhile isRustWs with
  | nil => rw [heq] at h; cases h
  | cons a t =>
      rw [heq] at h
      injection h with h1
      subst h1
      exact dropWhile_head_false heq

theorem trimList_eq_self {l : List Char}
    (hh : ∀ c, l.head? = some c → isRustWs c = false)
    (hl : ∀ c, l.getLast? = some c → isRustWs c = false) : trimList l = l := by
  have h1 : l.dropWhile isRustWs = l := by
    cases l with
    | nil => rfl
    | cons a t => rw [List.dropWhile_cons, if_neg (by simp [hh a rfl])]
  unfold trimList
  rw [h1]
  have h2 : l.reverse.dropWhile isRustWs = l.reverse := by
    cases hr : l.reverse with
    | nil => rfl
    | cons a t =>
        have ha : l.getLast? = some a := by
          rw [← List.head?_reverse, hr]
          rfl
        rw [List.dropWhile_cons, if_neg (by simp [hl a ha])]
  rw [h2, List.reverse_reverse]

theorem byteLen_cons (c : Char) (t : List Char) :
    byteLen (c :: t) = c.utf8Size + byteLen t := by
  simp [byteLen]

theorem byteTake_of_byteLen_le : ∀ {l : List Char} {n : Nat},
    byteLen l ≤ n → byteTake n l = some l := by
  intro l
  induction l with
  | nil => intro n _; rfl
  | cons c t ih =>
      intro n hn
      rw [byteLen_cons] at hn
      have hc : c.utf8Size ≤ n := by omega
      unfold byteTake
      rw [if_pos hc, ih (by omega)]
      rfl

theorem byteTake_mem : ∀ {l t : List Char} {n : Nat},
    byteTake n l = some t → ∀ a ∈ t, a ∈ l := by
  intro l
  induction l with
  | nil =>
      intro t n h a ha
      cases h
      cases ha
  | cons c l2 ih =>
      intro t n h a ha
      unfold byteTake at h
      by_cases hc : c.utf8Size ≤ n
      · rw [if_pos hc] at h
        rcases Option.map_eq_some'.mp h with ⟨t2, ht2, rfl⟩
        rcases List.mem_cons.mp ha with rfl | ha2
        · exact List.mem_cons_self _ _
        · exact List.mem_cons_of_mem _ (ih ht2 a ha2)
      · rw [if_neg hc] at h
        by_cases hn : n = 0
        · rw [if_pos hn] at h
          cases h
          cases ha
        · rw [if_neg hn] at h
          cases h

theorem byteTake_byteLen_le : ∀ {l t : List Char} {n : Nat},
    byteTake n l = some t → byteLen t ≤ n := by
  intro l
  induction l with
  | nil =>
      intro t n h
      cases h
      simp [byteLen]
  | cons c l2 ih =>
      intro t n h
      unfold byteTake at h
      by_cases hc : c.utf8Size ≤ n
      · rw [if_pos hc] at h
        rcases Option.map_eq_some'.mp h with ⟨t2, ht2, rfl⟩
        have := ih ht2
        rw [byteLen_cons]
        omega
      · rw [if_neg hc] at h
        by_cases hn : n = 0
        · rw [if_pos hn] at h
          cases h
          simp [byteLen]
        · rw [if_neg hn] at h
          cases h

theorem byteTake_cons_shape {c : Char} {l t : List Char} {n : Nat}
    (h : byteTake n (c :: l) = some t) : t = [] ∨ ∃ t2, t = c :: t2 := by
  unfold byteTake at h
  by_cases hc : c.utf8Size ≤ n
  · rw [if_pos hc] at h
    rcases Option.map_eq_some'.mp h with ⟨t2, _, rfl⟩
    exact Or.inr ⟨t2, rfl⟩
  · rw [if_neg hc] at h
    by_cases hn : n = 0
    · rw [if_pos hn] at h
      cases h
      exact Or.inl rfl
    · rw [if_neg hn] at h
      cases h

/-! ## Lemmas about `sanitize_filename` -/

theorem sanitizeList_shape {s r : List Char} (h : sanitizeList s = some r) :
    ∃ t, byteTake 200 (trimList (s.map (fun c => if c ∈ invalidFileChars then '_' else c)))
        = some t ∧ r = if t = [] then "untitled".toList else t := by
  unfold sanitizeList at h
  rcases Option.map_eq_some'.mp h with ⟨t, ht, hr⟩
  exact ⟨t, ht, hr.symm⟩

theorem untitled_no_invalid : ∀ c ∈ "untitled".toList, c ∉ invalidFileChars := by
  intro c hc
  have : c ∈ ['u', 'n', 't', 'i', 't', 'l', 'e', 'd'] := hc
  fin_cases this <;> decide

theorem sanitizeList_no_invalid {s r : List Char} (h : sanitizeList s = some r) :
    ∀ c ∈ r, c ∉ invalidFileChars := by
  rcases sanitizeList_shape h with ⟨t, ht, rfl⟩
  by_cases hnil : t = []
  · rw [if_pos hnil]
    exact untitled_no_invalid
  · rw [if_neg hnil]
    intro c hc hinv
    have hmem := byteTake_mem ht c hc
    have hmem2 := mem_of_mem_trimList hmem
    rcases List.mem_map.mp hmem2 with ⟨a, _, ha⟩
    by_cases hain : a ∈ invalidFileChars
    · rw [if_pos hain] at ha
      rw [← ha] at hinv
      exact absurd hinv (by decide)
    · rw [if_neg hain] at ha
      rw [← ha] at hinv
      exact hain hinv

theorem sanitizeList_byteLen_le {s r : List Char} (h : sanitizeList s = some r) :
    byteLen r ≤ 200 := by
  rcases sanitizeList_shape h with ⟨t, ht, rfl⟩
  by_cases hnil : t = []
  · rw [if_pos hnil]; decide
  · rw [if_neg hnil]; exact byteTake_byteLen_le ht

theorem sanitizeList_ne_nil {s r : List Char} (h : sanitizeList s = some r) : r ≠ [] := by
  rcases sanitizeList_shape h with ⟨t, ht, rfl⟩
  by_cases hnil : t = []
  · rw [if_pos hnil]; decide
  · rw [if_neg hnil]; exact hnil

theorem sanitizeList_head_not_ws {s r : List Char} (h : sanitizeList s = some r) :
    ∀ c, r.head? = some c → isRustWs c = false := by
  rcases sanitizeList_shape h with ⟨t, ht, rfl⟩
  by_cases hnil : t = []
  · rw [if_pos hnil]
    intro c hc
    injection hc with hc
    subst hc
    decide
  · rw [if_neg hnil]
    intro c hc
    cases htrim : trimList (s.map (fun c => if c ∈ invalidFileChars then '_' else c)) with
    | nil =>
        rw [htrim] at ht
        cases ht
        exact absurd rfl hnil
    | cons d rest =>
        rw [htrim] at ht
        rcases byteTake_cons_shape ht with rfl | ⟨t2, rfl⟩
        · exact absurd rfl hnil
        · injection hc with hc
          subst hc
          exact trimList_head?_not_ws (by rw [htrim]; rfl)

theorem sanitizeList_idem {s r : List Char} (h : sanitizeList s = some r)
    (hlast : ∀ c, r.getLast? = some c → isRustWs c = false) :
    sanitizeList r = some r := by
  have hinv := sanitizeList_no_invalid h
  have hmap : r.map (fun c => if c ∈ invalidFileChars then '_' else c) = r := by
    rw [List.map_congr_left (g := id) (fun a ha => by rw [if_neg (hinv a ha)]; rfl)]
    exact List.map_id r
  have htrim : trimList r = r :=
    trimList_eq_self (sanitizeList_head_not_ws h) hlast
  have hlen : byteLen r ≤ 200 := sanitizeList_byteLen_le h
  rw [show sanitizeList r =
      (byteTake 200
          (trimList (r.map (fun c => if c ∈ invalidFileChars then '_' else c)))).map
        (fun t => if t = [] then "untitled".toList else t) from rfl]
  rw [hmap, htrim, byteTake_of_byteLen_le hlen]
  have hne := sanitizeList_ne_nil h
  simp [hne]

/-- C4 (amended): `sanitize_filename`, where it returns (it panics when
the 200-byte truncation falls inside a multi-byte character), yields a
string free of the nine forbidden characters, of byte length (hence
character length) at most 200 and never empty; it is idempotent on
every input whose sanitized form does not end in whitespace — byte
truncation can expose a trailing space, on which a second application
trims further, so unrestricted idempotence fails. -/
theorem sanitize_filename_props (s r : List Char) (h : sanitizeList s = some r) :
    (∀ c ∈ r, c ∉ invalidFileChars) ∧ byteLen r ≤ 200 ∧ r ≠ [] ∧
      ((∀ c, r.getLast? = some c → isRustWs c = false) → sanitizeList r = some r) :=
  ⟨sanitizeList_no_invalid h, sanitizeList_byteLen_le h, sanitizeList_ne_nil h,
    sanitizeList_idem h⟩

/-- C4 witness: the theorem applied to the concrete input `"a b"`. -/
theorem sanitize_filename_props_witness :
    sanitizeList "a b".toList = some "a b".toList ∧
      ((∀ c ∈ "a b".toList, c ∉ invalidFileChars) ∧ byteLen "a b".toList ≤ 200 ∧
        "a b".toList ≠ [] ∧
        ((∀ c, ("a b".toList).getLast? = some c → isRustWs c = false) →
          sanitizeList "a b".toList = some "a b".toList)) :=
  ⟨by decide, sanitize_filename_props "a b".toList "a b".toList (by decide)⟩

set_option maxRecDepth 10000 in
/-- C4 counterexample: sanitizing 199 `a`s followed by `" b"` truncates
to 199 `a`s and a trailing space, which a second application trims to
199 `a`s — `sanitize_filename` is not idempotent; and on 67 three-byte
characters the 200-byte cut panics (no result), so it is not total. -/
theorem sanitize_filename_cex :
    sanitizeList c4s = some c4r ∧ sanitizeList c4r = some (List.replicate 199 'a') ∧
      c4r ≠ List.replicate 199 'a' ∧ sanitizeList c4wide = none :=
  ⟨by decide, by decide, by decide, by decide⟩

/-! ## Lemmas about `extract_extension` -/

theorem takeWhile_append_all {p : Char → Bool} {xs ys : List Char}
    (h : ∀ c ∈ xs, p c = true) :
    (xs ++ ys).takeWhile p = xs ++ ys.takeWhile p := by
  rw [List.takeWhile_append, if_pos]
  rw [List.takeWhile_eq_self_iff.mpr h]

theorem lastSegGo_append (sep : Char) (acc xs ys : List Char) :
    lastSegGo sep acc (xs ++ ys) = lastSegGo sep (lastSegGo sep acc xs) ys := by
  induction xs generalizing acc with
  | nil => rfl
  | cons c t ih =>
      by_cases hc : c = sep
      · simp only [List.cons_append, lastSegGo, if_pos hc]
        exact ih []
      · simp only [List.cons_append, lastSegGo, if_neg hc]
        exact ih (acc ++ [c])

theorem lastSegGo_no_sep (sep : Char) :
    ∀ (ys acc : List Char), sep ∉ ys → lastSegGo sep acc ys = acc ++ ys := by
  intro ys
  induction ys with
  | nil => intro acc _; simp [lastSegGo]
  | cons c t ih =>
      intro acc h
      have hc : ¬ c = sep := fun he => h (he ▸ List.mem_cons_self c t)
      have ht : sep ∉ t := fun hm => h (List.mem_cons_of_mem c hm)
      simp only [lastSegGo, if_neg hc]
      rw [ih (acc ++ [c]) ht]
      simp

theorem afterLastGo_append (sep : Char) :
    ∀ (xs : List Char) (st : Option (List Char)) (ys : List Char),
      afterLastGo sep st (xs ++ ys) = afterLastGo sep (afterLastGo sep st xs) ys := by
  intro xs
  induction xs with
  | nil => intro st ys; rfl
  | cons c t ih =>
      intro st ys
      by_cases hc : c = sep
      · simp only [List.cons_append, afterLastGo, if_pos hc]
        exact ih (some []) ys
      · simp only [List.cons_append, afterLastGo, if_neg hc]
        exact ih _ ys

/-- C9 (amended): for every non-empty `name` containing neither `?` nor
`#`, `extract_extension` of `"https://x/" + name + ".jpg?a=b"` is
`Some("jpg")`; with a `?` (or `#`) inside `name` the query/fragment
stripping cuts the URL short and the round trip fails. -/
theorem extract_extension_jpg (name : List Char) (hne : name ≠ [])
    (h1 : '?' ∉ name) (h2 : '#' ∉ name) :
    extractExtensionL ("https://x/".toList ++ name ++ ".jpg?a=b".toList) =
      some ("jpg".toList) := by
  have hq : takeUntil '?' ("https://x/".toList ++ name ++ ".jpg?a=b".toList) =
      "https://x/".toList ++ name ++ ".jpg".toList := by
    unfold takeUntil
    rw [List.append_assoc, takeWhile_append_all (by intro c hc; fin_cases hc <;> decide),
      takeWhile_append_all (by
        intro c hc
        simp only [ne_eq, decide_eq_true_eq]
        intro he
        exact h1 (he ▸ hc))]
    rw [← List.append_assoc]
    rfl
  have hh : takeUntil '#' ("https://x/".toList ++ name ++ ".jpg".toList) =
      "https://x/".toList ++ name ++ ".jpg".toList := by
    unfold takeUntil
    rw [List.append_assoc, takeWhile_append_all (by intro c hc; fin_cases hc <;> decide),
      takeWhile_append_all (by
        intro c hc
        simp only [ne_eq, decide_eq_true_eq]
        intro he
        exact h2 (he ▸ hc))]
    rw [← List.append_assoc]
    rfl
  have hseg : lastSeg '/' ("https://x/".toList ++ name ++ ".jpg".toList) =
      lastSegGo '/' [] name ++ ".jpg".toList := by
    unfold lastSeg
    rw [List.append_assoc, lastSegGo_append, lastSegGo_append]
    rw [show lastSegGo '/' [] "https://x/".toList = [] from rfl]
    exact lastSegGo_no_sep '/' ".jpg".toList _ (by decide)
  have hext : afterLast '.' (lastSegGo '/' [] name ++ ".jpg".toList) =
      some ("jpg".toList) := by
    unfold afterLast
    rw [afterLastGo_append]
    rfl
  unfold extractExtensionL
  rw [hq, hh]
  show (match afterLast '.' (lastSeg '/' ("https://x/".toList ++ name ++ ".jpg".toList)) with
        | some ext => if ext ≠ [] ∧ ext.length ≤ 10 then some (List.map Char.toLower ext)
            else none
        | none => none) = some ("jpg".toList)
  rw [hseg, hext]
  rfl

/-- C9 witness: the theorem applied to `name = "cover"`. -/
theorem extract_extension_jpg_witness :
    extractExtensionL ("https://x/".toList ++ "cover".toList ++ ".jpg?a=b".toList) =
      some ("jpg".toList) :=
  extract_extension_jpg "cover".toList (by decide) (by decide) (by decide)

/-- C9 counterexample: with `name = "?"` (non-empty), the query strip
runs first and leaves `"https://x/"`, whose last path segment has no
dot, so the result is `None`, not `Some("jpg")`. -/
theorem extract_extension_jpg_cex :
    extractExtensionL ("https://x/".toList ++ "?".toList ++ ".jpg?a=b".toList) = none ∧
      "?".toList ≠ [] := ⟨by decide, by decide⟩

/-! ## Lemmas about the fan-out search -/

theorem flatFold_spec :
    ∀ (g : List (String × Except Err (List Manga))) (acc : List Manga × List String),
      flatFold acc g = (acc.1 ++ flatSuccesses g, acc.2 ++ failEntries g) := by
  intro g
  induction g with
  | nil => intro acc; simp [flatFold, flatSuccesses, failEntries]
  | cons p t ih =>
      intro acc
      obtain ⟨sid, r⟩ := p
      cases r with
      | ok mg => simp [flatFold, flatSuccesses, failEntries, ih]
      | error e => simp [flatFold, flatSuccesses, failEntries, ih]

/-- C1 (amended): `search_all_flat` returns
`Other("All sources failed: …")` — with one formatted entry per
*failing* adapter, in registration order — exactly when the
concatenation of the successful results is empty *and* at least one
adapter failed (so an adapter succeeding with an empty list does not
prevent the error); otherwise it returns `Ok` with the successful
outputs concatenated in registration order and failing adapters
dropped. -/
theorem search_all_flat_characterization (col : SourcesCol) (params : SearchParams) :
    searchAllFlat col params =
      (if flatSuccesses (searchAllGrouped col params) = [] ∧
          failEntries (searchAllGrouped col params) ≠ [] then
        .error (.other ("All sources failed: " ++
          String.intercalate ", " (failEntries (searchAllGrouped col params))))
      else .ok (flatSuccesses (searchAllGrouped col params))) := by
  have h := flatFold_spec (searchAllGrouped col params) ([], [])
  unfold searchAllFlat
  show (if (flatFold ([], []) (searchAllGrouped col params)).1 = [] ∧
        ¬ (flatFold ([], []) (searchAllGrouped col params)).2 = [] then
      Except.error (Err.other ("All sources failed: " ++
        String.intercalate ", " (flatFold ([], []) (searchAllGrouped col params)).2))
    else Except.ok (flatFold ([], []) (searchAllGrouped col params)).1) = _
  rw [h]
  simp

/-- C1 counterexample: with adapter `"a"` succeeding with an empty list
and adapter `"b"` failing, `search_all_flat` still returns the
`Other("All sources failed: …")` error — refuting "whenever at least
one adapter's search succeeds, flatten returns Ok"; the error also
lists only the failing adapter, not one entry per adapter. -/
theorem search_all_flat_cex :
    (c1okSrc.search c1params).isOk = true ∧
      searchAllFlat c1col c1params =
        .error (.other "All sources failed: b: Network error: boom") :=
  ⟨by decide, by decide⟩

/-- C10: adding two adapters with equal ids keeps both: `get` returns
the adapter added last (its `HashMap` entry overwrites the first),
`list_ids` lists the id once per addition in insertion order, and the
grouped fan-out still queries both adapters. -/
theorem duplicate_id_registration (a b : SearchSource) (h : a.id = b.id)
    (p : SearchParams) :
    ((SourcesCol.new.add a).add b).get a.id = some b ∧
      ((SourcesCol.new.add a).add b).listIds = [a.id, b.id] ∧
      ((SourcesCol.new.add a).add b).size = 2 ∧
      searchAllGrouped ((SourcesCol.new.add a).add b) p =
        [(a.id, (a.search p).map (fun mg => mg.map (fun m => { m with source_id := a.id }))),
         (b.id, (b.search p).map (fun mg => mg.map (fun m => { m with source_id := b.id })))] := by
  refine ⟨?_, ?_, ?_, ?_⟩
  · show ((assocGet a.id (assocInsert b.id 1 (assocInsert a.id 0 []))).bind
      (fun i => [a, b].get? i)) = some b
    rw [h]
    simp [assocInsert, assocGet]
  · simp [SourcesCol.add, SourcesCol.new, SourcesCol.listIds]
  · rfl
  · simp [SourcesCol.add, SourcesCol.new, searchAllGrouped]

/-- C10 witness: the theorem applied to two concrete adapters both
registered under the id `"dup"`. -/
theorem duplicate_id_registration_witness :
    ((SourcesCol.new.add c10a).add c10b).get c10a.id = some c10b ∧
      ((SourcesCol.new.add c10a).add c10b).listIds = [c10a.id, c10b.id] ∧
      ((SourcesCol.new.add c10a).add c10b).size = 2 ∧
      searchAllGrouped ((SourcesCol.new.add c10a).add c10b) c10params =
        [(c10a.id, (c10a.search c10params).map
            (fun mg => mg.map (fun m => { m with source_id := c10a.id }))),
         (c10b.id, (c10b.search c10params).map
            (fun mg => mg.map (fun m => { m with source_id := c10b.id })))] :=
  duplicate_id_registration c10a c10b rfl c10params

/-! ## Lemmas about `HttpClient::get` -/

theorem httpGetGo_all429 (sid : String) (mr : Nat) (k : Nat)
    (responses : Nat → NetResp)
    (hresp : ∀ i, responses i = .resp 429 (some k) []) :
    ∀ (n a r : Nat) (s : List Nat), a + n = mr →
      httpGetGo sid mr responses a r s =
        ⟨r + n + 1, s ++ (List.range n).map (fun t => 2 ^ (a + t + 1)),
          .error (.rateLimit (some k))⟩ := by
  intro n
  induction n with
  | zero =>
      intro a r s ha
      unfold httpGetGo
      rw [hresp r]
      have hlt : ¬ a < mr := by omega
      simp [is2xx, hlt]
  | succ n ih =>
      intro a r s ha
      unfold httpGetGo
      rw [hresp r]
      have hlt : a < mr := by omega
      simp only [is2xx]
      rw [if_pos trivial, dif_pos hlt]
      rw [ih (a + 1) (r + 1) (s ++ [2 ^ (a + 1)]) (by omega)]
      have hreq : r + 1 + n + 1 = r + (n + 1) + 1 := by omega
      have hsl : (s ++ [2 ^ (a + 1)]) ++
            (List.range n).map (fun t => 2 ^ (a + 1 + t + 1)) =
          s ++ (List.range (n + 1)).map (fun t => 2 ^ (a + t + 1)) := by
        rw [List.append_assoc, List.range_succ_eq_map]
        congr 1
        rw [List.map_cons]
        simp only [List.singleton_append]
        congr 1
        rw [List.map_map]
        apply List.map_congr_left
        intro t _
        simp only [Function.comp_apply]
        congr 1
        omega
      rw [hreq, hsl]
      rw [if_neg (by decide)]

/-- C8: when every response is a 429 carrying `Retry-After: k`,
`HttpClient::get` issues at most (in fact exactly) `max_retries + 1`
requests, sleeps `2^attempt` seconds between attempts
(`attempt = 1, …, max_retries`), and ends in the `RateLimit` error
carrying `retry_after = Some(k)`. -/
theorem http_get_429_retries (sid : String) (mr : Nat) (k : Nat)
    (responses : Nat → NetResp)
    (hresp : ∀ i, responses i = .resp 429 (some k) []) :
    (httpGet sid mr responses).requests ≤ mr + 1 ∧
      (httpGet sid mr responses).requests = mr + 1 ∧
      (httpGet sid mr responses).sleeps =
        (List.range mr).map (fun t => 2 ^ (t + 1)) ∧
      (httpGet sid mr responses).result = .error (.rateLimit (some k)) := by
  have h := httpGetGo_all429 sid mr k responses hresp mr 0 0 [] (by omega)
  unfold httpGet
  rw [h]
  refine ⟨show 0 + mr + 1 ≤ mr + 1 by omega, show 0 + mr + 1 = mr + 1 by omega, ?_, rfl⟩
  show [] ++ (List.range mr).map (fun t => 2 ^ (0 + t + 1)) =
    (List.range mr).map (fun t => 2 ^ (t + 1))
  simp

/-- C8 witness: the theorem applied to `max_retries = 2` and a server
that always answers 429 with `Retry-After: 7`. -/
theorem http_get_429_retries_witness :
    (httpGet "s" 2 c8resp).requests ≤ 3 ∧
      (httpGet "s" 2 c8resp).requests = 3 ∧
      (httpGet "s" 2 c8resp).sleeps = (List.range 2).map (fun t => 2 ^ (t + 1)) ∧
      (httpGet "s" 2 c8resp).result = .error (.rateLimit (some 7)) :=
  http_get_429_retries "s" 2 7 c8resp (fun _ => rfl)

/-! ## Lemmas about the download loops -/

theorem dlLoopKiss_spec (fetch : String → FetchOut) (dir : String) :
    ∀ (pages : List String) (i : Nat),
      (∀ u ∈ pages, ∀ msg, fetch u ≠ .transport msg) →
      dlLoopKiss fetch dir pages i = .ok (kissExpectedFiles fetch dir pages i) := by
  intro pages
  induction pages with
  | nil => intro i _; rfl
  | cons url rest ih =>
      intro i hnt
      have hrest : ∀ u ∈ rest, ∀ msg, fetch u ≠ .transport msg :=
        fun u hu => hnt u (List.mem_cons_of_mem url hu)
      cases hf : fetch url with
      | transport msg => exact absurd hf (hnt url (List.mem_cons_self url rest) msg)
      | resp st body =>
          by_cases h2 : is2xx st = true
          · simp only [dlLoopKiss, kissExpectedFiles, hf, if_pos h2, ih (i + 1) hrest]
            rfl
          · simp only [dlLoopKiss, kissExpectedFiles, hf, if_neg h2]
            exact ih (i + 1) hrest

theorem dlLoopDefault_spec (fetch : String → FetchOut) (dir : String) :
    ∀ (pages : List String) (i : Nat),
      (∀ u ∈ pages, ∀ msg, fetch u ≠ .transport msg) →
      dlLoopDefault fetch dir pages i =
        (match firstNon2xx fetch pages i with
        | some (j, st) =>
            .error (.parse ("Failed to download page " ++ toString (j + 1) ++ ": HTTP " ++
              statusDisplay st))
        | none => .ok (kissExpectedFiles fetch dir pages i)) := by
  intro pages
  induction pages with
  | nil => intro i _; rfl
  | cons url rest ih =>
      intro i hnt
      have hrest : ∀ u ∈ rest, ∀ msg, fetch u ≠ .transport msg :=
        fun u hu => hnt u (List.mem_cons_of_mem url hu)
      cases hf : fetch url with
      | transport msg => exact absurd hf (hnt url (List.mem_cons_self url rest) msg)
      | resp st body =>
          by_cases h2 : is2xx st = true
          · simp only [dlLoopDefault, kissExpectedFiles, firstNon2xx, hf, if_pos h2,
              ih (i + 1) hrest]
            cases hfn : firstNon2xx fetch rest (i + 1) with
            | none => rfl
            | some p => rfl
          · simp only [dlLoopDefault, kissExpectedFiles, firstNon2xx, hf, if_neg h2]

theorem firstNon2xx_none (fetch : String → FetchOut) :
    ∀ (pages : List String) (i : Nat),
      (∀ u ∈ pages, ∃ st body, fetch u = .resp st body ∧ is2xx st = true) →
      firstNon2xx fetch pages i = none := by
  intro pages
  induction pages with
  | nil => intro i _; rfl
  | cons url rest ih =>
      intro i hall
      rcases hall url (List.mem_cons_self url rest) with ⟨st, body, hf, h2⟩
      simp only [firstNon2xx, hf, if_pos h2]
      exact ih (i + 1) (fun u hu => hall u (List.mem_cons_of_mem url hu))

/-- C2 (amended): only the KissManga override skips a non-2xx page:
given a non-empty page list and no transport errors, it returns `Ok`
with the chapter directory and writes exactly the 2xx pages, each
under its own 1-based index; the *default* `download_chapter` instead
aborts at the first non-2xx page with a
`Parse("Failed to download page N: HTTP …")` error (no directory path
is returned), succeeding only when every page is 2xx. -/
theorem download_chapter_skip_semantics :
    (∀ (fetch : String → FetchOut) (outDir cid : String) (pages : List String),
      pages ≠ [] →
      (∀ u ∈ pages, ∀ msg, fetch u ≠ .transport msg) →
      kissDownloadChapter (.ok pages) fetch outDir cid =
        .ok (kissChapterDir outDir cid,
          kissExpectedFiles fetch (kissChapterDir outDir cid) pages 0)) ∧
    (∀ (fetch : String → FetchOut) (outDir cid sid : String) (pages : List String),
      pages ≠ [] →
      (∀ u ∈ pages, ∀ msg, fetch u ≠ .transport msg) →
      defaultDownloadChapter sid (.ok pages) fetch outDir cid =
        (match firstNon2xx fetch pages 0 with
        | some (j, st) =>
            .error (.parse ("Failed to download page " ++ toString (j + 1) ++ ": HTTP " ++
              statusDisplay st))
        | none => .ok (defaultChapterDir outDir cid,
            kissExpectedFiles fetch (defaultChapterDir outDir cid) pages 0))) := by
  constructor
  · intro fetch outDir cid pages hne hnt
    show (if pages = [] then Except.error (Err.source "kmg" "No pages found for chapter")
        else (dlLoopKiss fetch (kissChapterDir outDir cid) pages 0).map
          (fun files => (kissChapterDir outDir cid, files))) = _
    rw [if_neg hne, dlLoopKiss_spec fetch (kissChapterDir outDir cid) pages 0 hnt]
    rfl
  · intro fetch outDir cid sid pages hne hnt
    show (if pages = [] then Except.error (Err.source sid "No pages found for chapter")
        else (dlLoopDefault fetch (defaultChapterDir outDir cid) pages 0).map
          (fun files => (defaultChapterDir outDir cid, files))) = _
    rw [if_neg hne, dlLoopDefault_spec fetch (defaultChapterDir outDir cid) pages 0 hnt]
    cases hfn : firstNon2xx fetch pages 0 with
    | none => rfl
    | some p => rfl

/-- C2 witness: the theorem applied to two pages whose first fetch
answers 500: the KissManga override writes only `page_002.jpeg` and
succeeds, the default aborts with the `Parse` error. -/
theorem download_chapter_skip_semantics_witness :
    kissDownloadChapter (.ok c2Pages) c2Fetch "out" "c1" =
        .ok (kissChapterDir "out" "c1",
          kissExpectedFiles c2Fetch (kissChapterDir "out" "c1") c2Pages 0) ∧
      defaultDownloadChapter "mgd" (.ok c2Pages) c2Fetch "out" "c1" =
        (match firstNon2xx c2Fetch c2Pages 0 with
        | some (j, st) =>
            .error (.parse ("Failed to download page " ++ toString (j + 1) ++ ": HTTP " ++
              statusDisplay st))
        | none => .ok (defaultChapterDir "out" "c1",
            kissExpectedFiles c2Fetch (defaultChapterDir "out" "c1") c2Pages 0)) := by
  have hnt : ∀ u ∈ c2Pages, ∀ msg, c2Fetch u ≠ .transport msg := by
    intro u _ msg
    unfold c2Fetch
    split <;> simp
  exact ⟨download_chapter_skip_semantics.1 c2Fetch "out" "c1" c2Pages (by decide) hnt,
    download_chapter_skip_semantics.2 c2Fetch "out" "c1" "mgd" c2Pages (by decide) hnt⟩

/-- C2 counterexample: with page 1 answering 500 and page 2 answering
200, the default `download_chapter` does not skip — it returns the
`Parse` error instead of `Ok` with the directory (only the KissManga
override skips and keeps `page_002.jpeg`). -/
theorem download_chapter_skip_cex :
    defaultDownloadChapter "mgd" (.ok c2Pages) c2Fetch "out" "c1" =
        .error (.parse "Failed to download page 1: HTTP 500 Internal Server Error") ∧
      kissDownloadChapter (.ok c2Pages) c2Fetch "out" "c1" =
        .ok ("out/chapter_c1", [("out/chapter_c1/page_002.jpeg", [2])]) :=
  ⟨by decide, by decide⟩

/-- C5 (amended): with a non-empty page list where every page fetch is
2xx, both download implementations return `Ok` with files
`page_NNN.<ext>` (NNN the 1-based index zero-padded to 3 digits, ext
the last `.`-segment of the query-stripped URL when at most 4 bytes,
else `jpg` — see `kissExpectedFiles`, `pad3`, `dlExtOf`); but the
*default* implementation uses the chapter id verbatim in the directory
name `chapter_<id>` (so `"ch/1"` nests instead of sanitizing), and only
the KissManga override replaces `/` with `_`. -/
theorem download_chapter_layout (fetch : String → FetchOut) (outDir cid sid : String)
    (pages : List String) (hne : pages ≠ [])
    (hall : ∀ u ∈ pages, ∃ st body, fetch u = .resp st body ∧ is2xx st = true) :
    defaultDownloadChapter sid (.ok pages) fetch outDir cid =
        .ok (defaultChapterDir outDir cid,
          kissExpectedFiles fetch (defaultChapterDir outDir cid) pages 0) ∧
      kissDownloadChapter (.ok pages) fetch outDir cid =
        .ok (kissChapterDir outDir cid,
          kissExpectedFiles fetch (kissChapterDir outDir cid) pages 0) := by
  have hnt : ∀ u ∈ pages, ∀ msg, fetch u ≠ .transport msg := by
    intro u hu msg hf
    rcases hall u hu with ⟨st, body, hf2, _⟩
    rw [hf] at hf2
    cases hf2
  constructor
  · show (if pages = [] then Except.error (Err.source sid "No pages found for chapter")
        else (dlLoopDefault fetch (defaultChapterDir outDir cid) pages 0).map
          (fun files => (defaultChapterDir outDir cid, files))) = _
    rw [if_neg hne, dlLoopDefault_spec fetch (defaultChapterDir outDir cid) pages 0 hnt,
      firstNon2xx_none fetch pages 0 hall]
    rfl
  · show (if pages = [] then Except.error (Err.source "kmg" "No pages found for chapter")
        else (dlLoopKiss fetch (kissChapterDir outDir cid) pages 0).map
          (fun files => (kissChapterDir outDir cid, files))) = _
    rw [if_neg hne, dlLoopKiss_spec fetch (kissChapterDir outDir cid) pages 0 hnt]
    rfl

/-- C5 witness: the theorem applied to the seed scenario — chapter id
`"ch/1"`, pages `a.png?q=1` and `b.jpeg`, every fetch 200. -/
theorem download_chapter_layout_witness :
    defaultDownloadChapter "mgd" (.ok c2Pages) c5Fetch "out" "ch/1" =
        .ok (defaultChapterDir "out" "ch/1",
          kissExpectedFiles c5Fetch (defaultChapterDir "out" "ch/1") c2Pages 0) ∧
      kissDownloadChapter (.ok c2Pages) c5Fetch "out" "ch/1" =
        .ok (kissChapterDir "out" "ch/1",
          kissExpectedFiles c5Fetch (kissChapterDir "out" "ch/1") c2Pages 0) :=
  download_chapter_layout c5Fetch "out" "ch/1" "mgd" c2Pages (by decide)
    (fun u _ => ⟨200, [9], rfl, rfl⟩)

/-- C5 counterexample: the default implementation does not sanitize the
chapter id: for id `"ch/1"` it writes under `out/chapter_ch/1` (a
nested path), not `out/chapter_ch_1`; the KissManga override is the one
producing `out/chapter_ch_1`. -/
theorem download_chapter_layout_cex :
    defaultDownloadChapter "mgd" (.ok ["https://x/a.png?q=1"]) c5Fetch "out" "ch/1" =
        .ok ("out/chapter_ch/1", [("out/chapter_ch/1/page_001.png", [9])]) ∧
      ("out/chapter_ch/1" : String) ≠ "out/chapter_ch_1" ∧
      kissDownloadChapter (.ok ["https://x/a.png?q=1"]) c5Fetch "out" "ch/1" =
        .ok ("out/chapter_ch_1", [("out/chapter_ch_1/page_001.png", [9])]) :=
  ⟨by decide, by decide, by decide⟩

/-! ## MangaDex page resolution and title selection -/

/-- C6 (amended): `get_pages` on an at-home response fails with `Parse`
when `hash` or `baseUrl` is empty; otherwise it prefers `data`,
building `{baseUrl stripped of trailing slashes}/data/{hash}/{fn}` per
entry in order, falls back to `/data-saver/` URLs from `dataSaver` when
`data` is empty, and fails with `NotFound` when both are empty
(equivalence of the embedding with the spec-side case split). -/
theorem md_get_pages_spec (cid : String) (resp : MDPagesResponse) :
    mdGetPagesFromResp cid resp = mdPagesSpec cid resp := by
  obtain ⟨b, h, d, ds⟩ := resp
  unfold mdGetPagesFromResp mdPagesSpec
  by_cases hh : h = ""
  · simp [hh]
  · by_cases hb : b = ""
    · simp [hh, hb]
    · cases d with
      | cons fn fns => simp [hh, hb]
      | nil =>
          cases ds with
          | cons fn fns => simp [hh, hb]
          | nil => simp [hh, hb]

/-- C6 counterexample: with `baseUrl = "https://u.test/"` (trailing
slash), the produced URL is `https://u.test/data/H/a.jpg`, not the
literal template `{baseUrl}/data/{hash}/{fn}` =
`https://u.test//data/H/a.jpg` — the code strips trailing slashes
first. -/
theorem md_get_pages_cex :
    mdGetPagesFromResp "c" c6resp = .ok ["https://u.test/data/H/a.jpg"] ∧
      ("https://u.test/data/H/a.jpg" : String) ≠
        c6resp.baseUrl ++ "/data/" ++ c6resp.hash ++ "/" ++ "a.jpg" :=
  ⟨by decide, by decide⟩

/-! ## Lemmas about title selection -/

theorem findSome?_priority_pick (m : List (String × String)) :
    ∀ (langs : List String),
      langs.findSome? (fun lang =>
        (mapGet lang m).bind (fun t => if trimStr t = "" then none else some (trimStr t))) =
      ((langs.filterMap (fun lang => mapGet lang m)).map trimStr).find?
        (fun t => t ≠ "") := by
  intro langs
  induction langs with
  | nil => rfl
  | cons lang rest ih =>
      cases hg : mapGet lang m with
      | none => simp [List.findSome?_cons, List.filterMap_cons, hg, ih]
      | some v =>
          by_cases hv : trimStr v = ""
          · simp [List.findSome?_cons, List.filterMap_cons, hg, hv, ih]
          · simp [List.findSome?_cons, List.filterMap_cons, hg, hv]

theorem find?_map_trim (l : List String) :
    ((l.find? (fun t => ¬ trimStr t = "")).map trimStr) =
      (l.map trimStr).find? (fun t => t ≠ "") := by
  induction l with
  | nil => rfl
  | cons v rest ih =>
      by_cases hv : trimStr v = ""
      · simp [List.find?_cons, hv, ih]
        rfl
      · simp [List.find?_cons, hv]

/-- C7: the title selection picks the first non-empty (after trimming)
value in preference order `en, en-us, ja, ja-ro`, then the first
non-empty value of the map (in its iteration order), then
`"Unknown Title"` (equivalence with the spec-side `specBestTitle`);
`map_manga_data_to_manga` uses it for the title, and stores the
description as `None` exactly when the same algorithm yields an empty
string or `"Unknown Title"`. -/
theorem md_title_selection (m : List (String × String)) (d : MDMangaData) :
    extractBestTitle m = specBestTitle m ∧
      (mdMapManga d).title = extractBestTitle d.title ∧
      (mdMapManga d).description =
        (if extractBestTitle d.description = "" ∨
            extractBestTitle d.description = "Unknown Title" then none
          else some (extractBestTitle d.description)) := by
  refine ⟨?_, rfl, rfl⟩
  unfold extractBestTitle specBestTitle
  rw [findSome?_priority_pick, find?_map_trim]
  cases hp : (((["en", "en-us", "ja", "ja-ro"].filterMap (fun lang => mapGet lang m)).map
      trimStr).find? (fun t => t ≠ "")) with
  | some t => rfl
  | none => rfl

/-! ## Lemmas about the stable sort and `F64` ordering -/

theorem mem_insertLe {le : α → α → Bool} {a x : α} :
    ∀ {l : List α}, x ∈ insertLe le a l ↔ x = a ∨ x ∈ l := by
  intro l
  induction l with
  | nil => simp [insertLe]
  | cons b t ih =>
      by_cases hab : le a b = true
      · simp [insertLe, hab]
      · simp only [insertLe, if_neg hab, List.mem_cons, ih]
        tauto

theorem mem_sortByLe {le : α → α → Bool} {x : α} :
    ∀ {l : List α}, x ∈ sortByLe le l ↔ x ∈ l := by
  intro l
  induction l with
  | nil => simp [sortByLe]
  | cons b t ih =>
      simp only [sortByLe, List.mem_cons, mem_insertLe, ih]

theorem pairwise_insertLe {le : α → α → Bool} {P : α → Prop}
    (htot : ∀ x y, P x → P y → le x y = true ∨ le y x = true)
    (htr : ∀ x y z, P x → P y → P z → le x y = true → le y z = true → le x z = true)
    {a : α} (hPa : P a) :
    ∀ {l : List α}, (∀ x ∈ l, P x) →
      l.Pairwise (fun x y => le x y = true) →
      (insertLe le a l).Pairwise (fun x y => le x y = true) := by
  intro l
  induction l with
  | nil => intro _ _; simp [insertLe]
  | cons b t ih =>
      intro hPl hs
      rcases List.pairwise_cons.mp hs with ⟨hbt, ht⟩
      have hPb : P b := hPl b (List.mem_cons_self b t)
      have hPt : ∀ x ∈ t, P x := fun x hx => hPl x (List.mem_cons_of_mem b hx)
      by_cases hab : le a b = true
      · rw [insertLe, if_pos hab]
        refine List.pairwise_cons.mpr ⟨?_, hs⟩
        intro x hx
        rcases List.mem_cons.mp hx with rfl | hx2
        · exact hab
        · exact htr a b x hPa hPb (hPt x hx2) hab (hbt x hx2)
      · rw [insertLe, if_neg hab]
        have hba : le b a = true := by
          rcases htot a b hPa hPb with h | h
          · exact absurd h hab
          · exact h
        refine List.pairwise_cons.mpr ⟨?_, ih hPt ht⟩
        intro x hx
        rcases mem_insertLe.mp hx with rfl | hx2
        · exact hba
        · exact hbt x hx2

theorem pairwise_sortByLe {le : α → α → Bool} {P : α → Prop}
    (htot : ∀ x y, P x → P y → le x y = true ∨ le y x = true)
    (htr : ∀ x y z, P x → P y → P z → le x y = true → le y z = true → le x z = true) :
    ∀ (l : List α), (∀ x ∈ l, P x) →
      (sortByLe le l).Pairwise (fun x y => le x y = true) := by
  intro l
  induction l with
  | nil => intro _; simp [sortByLe]
  | cons a t ih =>
      intro hPl
      have hPa : P a := hPl a (List.mem_cons_self a t)
      have hPt : ∀ x ∈ t, P x := fun x hx => hPl x (List.mem_cons_of_mem a hx)
      exact pairwise_insertLe htot htr hPa
        (fun x hx => hPt x (mem_sortByLe.mp hx)) (ih hPt)

theorem fle_finite {p q : ℚ} : F64.fle (.finite p) (.finite q) = true ↔ p ≤ q := by
  show (match F64.pcmp (.finite p) (.finite q) with
        | some Ordering.lt => true
        | some Ordering.eq => true
        | _ => false) = true ↔ p ≤ q
  rw [show F64.pcmp (.finite p) (.finite q) =
      some (if p < q then Ordering.lt else if q < p then Ordering.gt else Ordering.eq)
    from rfl]
  split_ifs with h1 h2
  · simp
    linarith
  · simp
    exact h2
  · simp
    linarith

theorem rustLe_eq_fle {a b : F64} (ha : a ≠ .nan) (hb : b ≠ .nan) :
    F64.rustLe a b = F64.fle a b := by
  cases a <;> cases b <;>
    first
      | exact absurd rfl ha
      | exact absurd rfl hb
      | rfl
      | (rename_i p q
         show (match (F64.pcmp (.finite p) (.finite q)).getD Ordering.eq with
               | Ordering.gt => false
               | _ => true) =
           (match F64.pcmp (.finite p) (.finite q) with
            | some Ordering.lt => true
            | some Ordering.eq => true
            | _ => false)
         rw [show F64.pcmp (.finite p) (.finite q) =
             some (if p < q then Ordering.lt else if q < p then Ordering.gt else Ordering.eq)
           from rfl]
         split_ifs <;> rfl)

theorem fle_total {a b : F64} (ha : a ≠ .nan) (hb : b ≠ .nan) :
    F64.fle a b = true ∨ F64.fle b a = true := by
  cases a <;> cases b <;>
    first
      | exact absurd rfl ha
      | exact absurd rfl hb
      | exact Or.inl rfl
      | exact Or.inr rfl
      | (rename_i p q
         rw [fle_finite, fle_finite]
         exact le_total p q)

theorem fle_trans {a b c : F64} (ha : a ≠ .nan) (hb : b ≠ .nan) (hc : c ≠ .nan)
    (h1 : F64.fle a b = true) (h2 : F64.fle b c = true) : F64.fle a c = true := by
  cases a <;> cases b <;> cases c <;>
    first
      | exact absurd rfl ha
      | exact absurd rfl hb
      | exact absurd rfl hc
      | rfl
      | exact h1
      | exact h2
      | (rename_i p q r
         rw [fle_finite] at h1 h2 ⊢
         linarith)
      | (exfalso
         simp only [F64.fle, F64.pcmp] at h1 h2
         simp_all)

theorem sortedByNumber_of_chain' :
    ∀ {l : List Chapter},
      List.Chain' (fun a b => F64.fle a.number b.number = true) l →
      sortedByNumber l = true := by
  intro l
  induction l with
  | nil => intro _; rfl
  | cons a t ih =>
      intro h
      cases t with
      | nil => rfl
      | cons b t2 =>
          rcases List.chain'_cons.mp h with ⟨hab, hrest⟩
          unfold sortedByNumber
          rw [hab, ih hrest]
          rfl

theorem sortChapters_sorted {l : List Chapter}
    (h : ∀ c ∈ l, c.number ≠ F64.nan) : sortedByNumber (sortChapters l) = true := by
  have hP : ∀ c ∈ sortChapters l, c.number ≠ F64.nan := by
    intro c hc
    exact h c (mem_sortByLe.mp hc)
  have hpw : (sortChapters l).Pairwise (fun x y => chapterLe x y = true) := by
    apply pairwise_sortByLe (P := fun c : Chapter => c.number ≠ F64.nan)
    · intro x y hx hy
      unfold chapterLe
      rw [rustLe_eq_fle hx hy, rustLe_eq_fle hy hx]
      exact fle_total hx hy
    · intro x y z hx hy hz h1 h2
      unfold chapterLe at *
      rw [rustLe_eq_fle hx hy] at h1
      rw [rustLe_eq_fle hy hz] at h2
      rw [rustLe_eq_fle hx hz]
      exact fle_trans hx hy hz h1 h2
    · exact h
  have hpw2 : (sortChapters l).Pairwise (fun x y => F64.fle x.number y.number = true) := by
    refine hpw.imp_of_mem ?_
    intro x y hx hy hxy
    rw [← rustLe_eq_fle (hP x hx) (hP y hy)]
    exact hxy
  exact sortedByNumber_of_chain' hpw2.chain'

theorem digit_ne {c d : Char} (hc : c.isDigit = true) (hd : d.isDigit = false) : c ≠ d := by
  intro he
  rw [he] at hc
  rw [hc] at hd
  cases hd

theorem toLower_digit {c : Char} (h : c.isDigit = true) : c.toLower = c := by
  have h2 : c.toNat ≤ 57 ∧ 48 ≤ c.toNat := by
    simp only [Char.isDigit, Bool.and_eq_true, decide_eq_true_eq, UInt32.le_def,
      BitVec.le_def] at h
    have h48 : ((48 : UInt32).toBitVec).toNat = 48 := rfl
    have h57 : ((57 : UInt32).toBitVec).toNat = 57 := rfl
    rw [h48, h57] at h
    exact ⟨h.2, h.1⟩
  simp only [Char.toLower]
  rw [if_neg]
  omega

theorem dropWhile_all_nil {p : Char → Bool} :
    ∀ {l : List Char}, (∀ c ∈ l, p c = true) → l.dropWhile p = [] := by
  intro l
  induction l with
  | nil => intro _; rfl
  | cons c t ih =>
      intro h
      rw [List.dropWhile_cons, if_pos (h c (List.mem_cons_self c t))]
      exact ih (fun d hd => h d (List.mem_cons_of_mem c hd))

theorem dropWhile_append_all {p : Char → Bool} {xs : List Char} (ys : List Char)
    (h : ∀ c ∈ xs, p c = true) : (xs ++ ys).dropWhile p = ys.dropWhile p := by
  induction xs with
  | nil => rfl
  | cons c t ih =>
      rw [List.cons_append, List.dropWhile_cons, if_pos (h c (List.mem_cons_self c t))]
      exact ih (fun d hd => h d (List.mem_cons_of_mem c hd))

theorem mkDecimal_finite (neg : Bool) (i f : List Char) (e : ℤ) :
    ∃ q : ℚ, mkDecimal neg i f e = .finite q := by
  unfold mkDecimal
  exact ⟨_, rfl⟩

theorem parseSignificand_digits {d0 : Char} {dt : List Char}
    (hd : ∀ d ∈ d0 :: dt, d.isDigit = true) :
    parseSignificand false (d0 :: dt) = some (mkDecimal false (d0 :: dt) [] 0) := by
  unfold parseSignificand
  rw [List.takeWhile_eq_self_iff.mpr hd, dropWhile_all_nil hd]
  show (if (d0 :: dt : List Char) = [] then none else parseExpPart false (d0 :: dt) [] []) =
    some (mkDecimal false (d0 :: dt) [] 0)
  rw [if_neg (by simp)]
  rfl

theorem parseSignificand_digits_dot {d0 : Char} {dt fs : List Char}
    (hd : ∀ d ∈ d0 :: dt, d.isDigit = true)
    (hf : ∀ d ∈ fs, d.isDigit = true) :
    parseSignificand false ((d0 :: dt) ++ '.' :: fs) =
      some (mkDecimal false (d0 :: dt) fs 0) := by
  unfold parseSignificand
  rw [takeWhile_append_all hd, dropWhile_append_all ('.' :: fs) hd,
    List.takeWhile_cons_of_neg (by decide), List.dropWhile_cons_of_neg (by decide),
    List.append_nil]
  show (if (d0 :: dt : List Char) = [] ∧ List.takeWhile Char.isDigit fs = [] then none
      else parseExpPart false (d0 :: dt) (List.takeWhile Char.isDigit fs)
        (List.dropWhile Char.isDigit fs)) = some (mkDecimal false (d0 :: dt) fs 0)
  rw [List.takeWhile_eq_self_iff.mpr hf, dropWhile_all_nil hf]
  rw [if_neg (by simp)]
  rfl

theorem parseF64_cons_digit {d0 : Char} {dt : List Char} (hd0 : d0.isDigit = true) :
    parseF64 (d0 :: dt) = parseSignificand false (d0 :: dt) := by
  have hminus : ¬ d0 = '-' := digit_ne hd0 (by decide)
  have hplus : ¬ (d0 = '+' ∨ d0 = '-') := by
    rintro (h | h)
    · exact digit_ne hd0 (by decide) h
    · exact hminus h
  have hlow : d0.toLower = d0 := toLower_digit hd0
  have hn : ¬ ((d0 :: dt).map Char.toLower = "nan".toList) := by
    intro h
    rw [List.map_cons, hlow] at h
    injection h with h1 _
    exact digit_ne hd0 (by decide) h1
  have hi : ¬ ((d0 :: dt).map Char.toLower = "inf".toList ∨
      (d0 :: dt).map Char.toLower = "infinity".toList) := by
    rintro (h | h) <;>
      (rw [List.map_cons, hlow] at h
       injection h with h1 _
       exact digit_ne hd0 (by decide) h1)
  simp only [parseF64]
  rw [if_neg hplus, if_neg hn, if_neg hi, if_neg hminus]

theorem parseF64_grabNum {c : Char} (rest : List Char) (hc : c.isDigit = true) :
    ∃ q : ℚ, parseF64 (grabNum (c :: rest)) = some (.finite q) := by
  have hds : List.takeWhile Char.isDigit (c :: rest) =
      c :: List.takeWhile Char.isDigit rest := List.takeWhile_cons_of_pos hc
  have hdig : ∀ d ∈ c :: List.takeWhile Char.isDigit rest, d.isDigit = true := by
    intro d hd
    rcases List.mem_cons.mp hd with rfl | hd2
    · exact hc
    · exact List.mem_takeWhile_imp hd2
  unfold grabNum
  rw [hds]
  cases hdrop : List.dropWhile Char.isDigit (c :: rest) with
  | nil =>
      rcases mkDecimal_finite false (c :: List.takeWhile Char.isDigit rest) [] 0 with ⟨q, hq⟩
      exact ⟨q, by rw [parseF64_cons_digit hc, parseSignificand_digits hdig, hq]⟩
  | cons e r2 =>
      show ∃ q, parseF64
          (if e = '.' then
            (if List.takeWhile Char.isDigit r2 = [] then
              c :: List.takeWhile Char.isDigit rest
            else (c :: List.takeWhile Char.isDigit rest) ++ '.' :: List.takeWhile Char.isDigit r2)
          else c :: List.takeWhile Char.isDigit rest) = some (F64.finite q)
      by_cases he : e = '.'
      · rw [if_pos he]
        cases hfs : List.takeWhile Char.isDigit r2 with
        | nil =>
            rw [if_pos rfl]
            rcases mkDecimal_finite false (c :: List.takeWhile Char.isDigit rest) [] 0 with
              ⟨q, hq⟩
            exact ⟨q, by rw [parseF64_cons_digit hc, parseSignificand_digits hdig, hq]⟩
        | cons f0 ft =>
            rw [if_neg (by simp)]
            have hfdig : ∀ d ∈ f0 :: ft, d.isDigit = true := by
              intro d hd
              rw [← hfs] at hd
              exact List.mem_takeWhile_imp hd
            rcases mkDecimal_finite false (c :: List.takeWhile Char.isDigit rest)
              (f0 :: ft) 0 with ⟨q, hq⟩
            refine ⟨q, ?_⟩
            have hcons : (c :: List.takeWhile Char.isDigit rest) ++ '.' :: f0 :: ft =
                c :: (List.takeWhile Char.isDigit rest ++ '.' :: f0 :: ft) := rfl
            rw [hcons, parseF64_cons_digit hc, ← hcons,
              parseSignificand_digits_dot hdig hfdig, hq]
      · rw [if_neg he]
        rcases mkDecimal_finite false (c :: List.takeWhile Char.isDigit rest) [] 0 with ⟨q, hq⟩
        exact ⟨q, by rw [parseF64_cons_digit hc, parseSignificand_digits hdig, hq]⟩

theorem wsThenNum_capture {s cap : List Char} (h : wsThenNum s = some cap) :
    ∃ c rest, cap = grabNum (c :: rest) ∧ c.isDigit = true := by
  unfold wsThenNum at h
  cases hd : s.dropWhile isRustWs with
  | nil => rw [hd] at h; cases h
  | cons c rest =>
      rw [hd] at h
      replace h : (if c.isDigit = true then some (grabNum (c :: rest)) else none) =
        some cap := h
      by_cases hc : c.isDigit = true
      · rw [if_pos hc] at h
        injection h with h2
        exact ⟨c, rest, h2.symm, hc⟩
      · rw [if_neg hc] at h
        cases h

theorem scanNum_capture :
    ∀ {s cap : List Char}, scanNum s = some cap →
      ∃ c rest, cap = grabNum (c :: rest) ∧ c.isDigit = true := by
  intro s
  induction s with
  | nil => intro cap h; cases h
  | cons c t ih =>
      intro cap h
      unfold scanNum at h
      by_cases hc : c.isDigit = true
      · rw [if_pos hc] at h
        injection h with h2
        exact ⟨c, t, h2.symm, hc⟩
      · rw [if_neg hc] at h
        exact ih h

theorem kw1At_capture {s cap : List Char} (h : kw1At s = some cap) :
    ∃ c rest, cap = grabNum (c :: rest) ∧ c.isDigit = true := by
  unfold kw1At at h
  cases h1 : (if isPreCI "chapter" s then wsThenNum (s.drop 7) else none) with
  | some c1 =>
      rw [h1] at h
      have h2 : c1 = cap := by injection h
      subst h2
      by_cases hch : isPreCI "chapter" s = true
      · rw [if_pos hch] at h1
        exact wsThenNum_capture h1
      · rw [if_neg hch] at h1
        cases h1
  | none =>
      rw [h1] at h
      replace h : (if isPreCI "ch" s = true then
          (match s.drop 2 with
          | e :: r =>
              if e = '.' then
                (match wsThenNum r with
                | some cap => some cap
                | none => wsThenNum ('.' :: r))
              else wsThenNum (e :: r)
          | [] => wsThenNum []) else none) = some cap := h
      by_cases hch : isPreCI "ch" s = true
      · rw [if_pos (by exact hch)] at h
        cases hd : s.drop 2 with
        | nil =>
            rw [hd] at h
            exact wsThenNum_capture h
        | cons e r =>
            rw [hd] at h
            replace h : (if e = '.' then
                (match wsThenNum r with
                | some cap => some cap
                | none => wsThenNum ('.' :: r))
              else wsThenNum (e :: r)) = some cap := h
            by_cases he : e = '.'
            · rw [if_pos he] at h
              cases h2 : wsThenNum r with
              | some c2 =>
                  rw [h2] at h
                  have h3 : c2 = cap := by injection h
                  subst h3
                  exact wsThenNum_capture h2
              | none =>
                  rw [h2] at h
                  exact wsThenNum_capture h
            · rw [if_neg he] at h
              exact wsThenNum_capture h
      · rw [if_neg (by exact hch)] at h
        cases h

theorem dashNum_capture {s cap : List Char} (h : dashNum s = some cap) :
    ∃ c rest, cap = grabNum (c :: rest) ∧ c.isDigit = true := by
  unfold dashNum at h
  cases s with
  | nil => cases h
  | cons c r =>
      cases r with
      | nil =>
          replace h : (if c = '-' then none
              else if c.isDigit = true then some (grabNum [c]) else none) = some cap := h
          by_cases hc : c = '-'
          · rw [if_pos hc] at h
            cases h
          · rw [if_neg hc] at h
            by_cases hdig : c.isDigit = true
            · rw [if_pos hdig] at h
              injection h with h2
              exact ⟨c, [], h2.symm, hdig⟩
            · rw [if_neg hdig] at h
              cases h
      | cons d r2 =>
          replace h : (if c = '-' then
              (if d.isDigit = true then some (grabNum (d :: r2)) else none)
            else if c.isDigit = true then some (grabNum (c :: d :: r2)) else none) =
            some cap := h
          by_cases hc : c = '-'
          · rw [if_pos hc] at h
            by_cases hd : d.isDigit = true
            · rw [if_pos hd] at h
              injection h with h2
              exact ⟨d, r2, h2.symm, hd⟩
            · rw [if_neg hd] at h
              cases h
          · rw [if_neg hc] at h
            by_cases hdig : c.isDigit = true
            · rw [if_pos hdig] at h
              injection h with h2
              exact ⟨c, d :: r2, h2.symm, hdig⟩
            · rw [if_neg hdig] at h
              cases h

theorem kw3At_capture {s cap : List Char} (h : kw3At s = some cap) :
    ∃ c rest, cap = grabNum (c :: rest) ∧ c.isDigit = true := by
  unfold kw3At at h
  cases h1 : (if isPreCI "chapter" s then dashNum (s.drop 7) else none) with
  | some c1 =>
      rw [h1] at h
      have h2 : c1 = cap := by injection h
      subst h2
      by_cases hch : isPreCI "chapter" s = true
      · rw [if_pos hch] at h1
        exact dashNum_capture h1
      · rw [if_neg hch] at h1
        cases h1
  | none =>
      rw [h1] at h
      replace h : (if isPreCI "ch" s = true then dashNum (s.drop 2) else none) =
        some cap := h
      by_cases hch : isPreCI "ch" s = true
      · rw [if_pos (by exact hch)] at h
        exact dashNum_capture h
      · rw [if_neg (by exact hch)] at h
        cases h

theorem kwScan_capture {tryAt : List Char → Option (List Char)}
    (hT : ∀ {s2 cap}, tryAt s2 = some cap →
      ∃ c rest, cap = grabNum (c :: rest) ∧ c.isDigit = true) :
    ∀ {s cap : List Char}, kwScan tryAt s = some cap →
      ∃ c rest, cap = grabNum (c :: rest) ∧ c.isDigit = true := by
  intro s
  induction s with
  | nil => intro cap h; cases h
  | cons a t ih =>
      intro cap h
      unfold kwScan at h
      cases h1 : tryAt (a :: t) with
      | some c1 =>
          rw [h1] at h
          have h2 : c1 = cap := by injection h
          subst h2
          exact hT h1
      | none =>
          rw [h1] at h
          exact ih h

theorem extractChapterNumber_finite {title cid : String} {x : F64}
    (h : extractChapterNumber title cid = some x) : ∃ q : ℚ, x = .finite q := by
  unfold extractChapterNumber at h
  have hcap : ∀ {cap : List Char},
      (∃ c rest, cap = grabNum (c :: rest) ∧ c.isDigit = true) →
      parseF64 cap = some x → ∃ q : ℚ, x = .finite q := by
    rintro cap ⟨c, rest, rfl, hc⟩ hp
    rcases parseF64_grabNum rest hc with ⟨q, hq⟩
    rw [hp] at hq
    injection hq with h2
    exact ⟨q, h2⟩
  replace h : (match kwScan kw1At ((lowerStr title).toList) with
    | some cap => parseF64 cap
    | none =>
      match scanNum ((lowerStr title).toList) with
      | some cap => parseF64 cap
      | none =>
        match kwScan kw3At (cid.toList) with
        | some cap => parseF64 cap
        | none =>
          match scanNum (cid.toList) with
          | some cap => parseF64 cap
          | none => none) = some x := h
  cases h1 : kwScan kw1At ((lowerStr title).toList) with
  | some cap =>
      rw [h1] at h
      exact hcap (kwScan_capture (fun hh => kw1At_capture hh) h1) h
  | none =>
      rw [h1] at h
      replace h : (match scanNum ((lowerStr title).toList) with
        | some cap => parseF64 cap
        | none =>
          match kwScan kw3At (cid.toList) with
          | some cap => parseF64 cap
          | none =>
            match scanNum (cid.toList) with
            | some cap => parseF64 cap
            | none => none) = some x := h
      cases h2 : scanNum ((lowerStr title).toList) with
      | some cap =>
          rw [h2] at h
          exact hcap (scanNum_capture h2) h
      | none =>
          rw [h2] at h
          replace h : (match kwScan kw3At (cid.toList) with
            | some cap => parseF64 cap
            | none =>
              match scanNum (cid.toList) with
              | some cap => parseF64 cap
              | none => none) = some x := h
          cases h3 : kwScan kw3At (cid.toList) with
          | some cap =>
              rw [h3] at h
              exact hcap (kwScan_capture (fun hh => kw3At_capture hh) h3) h
          | none =>
              rw [h3] at h
              replace h : (match scanNum (cid.toList) with
                | some cap => parseF64 cap
                | none => none) = some x := h
              cases h4 : scanNum (cid.toList) with
              | some cap =>
                  rw [h4] at h
                  exact hcap (scanNum_capture h4) h
              | none =>
                  rw [h4] at h
                  cases h

theorem mdMapChapter_fields {data : MDChapterData} {mangaId : String} {c : Chapter}
    (h : mdMapChapter data mangaId = some c) :
    c.manga_id = mangaId ∧ c.source_id = "mgd" := by
  injection h with h2
  subst h2
  exact ⟨rfl, rfl⟩

theorem mdAppend_fields {mangaId : String} {acc : List Chapter}
    (hacc : ∀ c ∈ acc, c.manga_id = mangaId ∧ c.source_id = "mgd")
    (data : List MDChapterData) :
    ∀ c ∈ acc ++ data.filterMap (fun cd => mdMapChapter cd mangaId),
      c.manga_id = mangaId ∧ c.source_id = "mgd" := by
  intro c hc
  rcases List.mem_append.mp hc with h1 | h1
  · exact hacc c h1
  · rcases List.mem_filterMap.mp h1 with ⟨cd, _, hmap⟩
    exact mdMapChapter_fields hmap

theorem mdFetchGo_fields {feed : Nat → Except Err MDChapterListResponse}
    {mangaId : String} :
    ∀ {fuel offset : Nat} {acc chs : List Chapter},
      mdFetchGo feed mangaId fuel offset acc = some (.ok chs) →
      (∀ c ∈ acc, c.manga_id = mangaId ∧ c.source_id = "mgd") →
      ∀ c ∈ chs, c.manga_id = mangaId ∧ c.source_id = "mgd" := by
  intro fuel
  induction fuel with
  | zero =>
      intro offset acc chs h
      cases h
  | succ n ih =>
      intro offset acc chs h hacc
      replace h : (match feed offset with
        | .error e => some (.error e)
        | .ok resp =>
            if resp.total ≤ offset + resp.limit then
              some (.ok (acc ++ resp.data.filterMap (fun cd => mdMapChapter cd mangaId)))
            else mdFetchGo feed mangaId n (offset + resp.limit)
              (acc ++ resp.data.filterMap (fun cd => mdMapChapter cd mangaId))) =
        some (.ok chs) := h
      cases hf : feed offset with
      | error e =>
          rw [hf] at h
          injection h with h2
          exact absurd h2 (by simp)
      | ok resp =>
          rw [hf] at h
          replace h : (if resp.total ≤ offset + resp.limit then
              some (.ok (acc ++ resp.data.filterMap (fun cd => mdMapChapter cd mangaId)))
            else mdFetchGo feed mangaId n (offset + resp.limit)
              (acc ++ resp.data.filterMap (fun cd => mdMapChapter cd mangaId))) =
            some (Except.ok chs) := h
          by_cases hle : resp.total ≤ offset + resp.limit
          · rw [if_pos hle] at h
            injection h with h2
            injection h2 with h3
            rw [← h3]
            exact mdAppend_fields hacc resp.data
          · rw [if_neg hle] at h
            exact ih h (mdAppend_fields hacc resp.data)

theorem mdFetchAllChapters_fields {fuel : Nat}
    {feed : Nat → Except Err MDChapterListResponse} {mangaId : String}
    {chs : List Chapter}
    (h : mdFetchAllChapters fuel feed mangaId = some (.ok chs)) :
    ∀ c ∈ chs, c.manga_id = mangaId ∧ c.source_id = "mgd" := by
  unfold mdFetchAllChapters at h
  cases hg : mdFetchGo feed mangaId fuel 0 [] with
  | none =>
      rw [hg] at h
      exact absurd h (by simp)
  | some r =>
      cases r with
      | error e =>
          rw [hg] at h
          replace h : (some (Except.error e) : Option (Except Err (List Chapter))) =
            some (.ok chs) := h
          injection h with h2
          exact absurd h2 (by simp)
      | ok l =>
          rw [hg] at h
          replace h : (some (Except.ok (sortChapters l)) : Option (Except Err (List Chapter))) =
            some (.ok chs) := h
          injection h with h2
          injection h2 with h3
          intro c hc
          rw [← h3] at hc
          exact mdFetchGo_fields hg (by intro c hc2; cases hc2) c (mem_sortByLe.mp hc)

theorem mdFetchAllChapters_sorted {fuel : Nat}
    {feed : Nat → Except Err MDChapterListResponse} {mangaId : String}
    {chs : List Chapter}
    (h : mdFetchAllChapters fuel feed mangaId = some (.ok chs))
    (hn : ∀ c ∈ chs, c.number ≠ F64.nan) :
    sortedByNumber chs = true := by
  unfold mdFetchAllChapters at h
  cases hg : mdFetchGo feed mangaId fuel 0 [] with
  | none =>
      rw [hg] at h
      exact absurd h (by simp)
  | some r =>
      cases r with
      | error e =>
          rw [hg] at h
          replace h : (some (Except.error e) : Option (Except Err (List Chapter))) =
            some (.ok chs) := h
          injection h with h2
          exact absurd h2 (by simp)
      | ok l =>
          rw [hg] at h
          replace h : (some (Except.ok (sortChapters l)) : Option (Except Err (List Chapter))) =
            some (.ok chs) := h
          injection h with h2
          injection h2 with h3
          rw [← h3]
          apply sortChapters_sorted
          intro c hc
          apply hn
          rw [← h3]
          exact mem_sortByLe.mpr hc

theorem kmBuildChapters_fields {mangaId : String} :
    ∀ (items : List (String × String)) (i : Nat),
      ∀ c ∈ kmBuildChapters mangaId items i,
        c.manga_id = mangaId ∧ c.source_id = "kmg" ∧ c.number ≠ F64.nan := by
  intro items
  induction items with
  | nil =>
      intro i c hc
      cases hc
  | cons p rest ih =>
      intro i c hc
      obtain ⟨href, title⟩ := p
      rcases List.mem_cons.mp hc with h1 | h1
      · subst h1
        refine ⟨rfl, rfl, ?_⟩
        show (extractChapterNumber title (kmChapterId href)).getD
          (F64.finite ((i + 1 : ℕ) : ℚ)) ≠ F64.nan
        cases hx : extractChapterNumber title (kmChapterId href) with
        | none =>
            exact fun hcon => F64.noConfusion hcon
        | some x =>
            rcases extractChapterNumber_finite hx with ⟨q, rfl⟩
            exact fun hcon => F64.noConfusion hcon
      · exact ih (i + 1) c h1

theorem kmGetChapters_props (items : List (String × String)) (mangaId : String) :
    (∀ c ∈ kmGetChapters items mangaId,
      c.manga_id = mangaId ∧ c.source_id = "kmg" ∧ c.number ≠ F64.nan) ∧
    sortedByNumber (kmGetChapters items mangaId) = true := by
  constructor
  · intro c hc
    exact kmBuildChapters_fields items 0 c (mem_sortByLe.mp hc)
  · show sortedByNumber (sortChapters (kmBuildChapters mangaId items 0)) = true
    apply sortChapters_sorted
    intro c hc
    exact (kmBuildChapters_fields items 0 c hc).2.2

/-- C3: both cited adapters stamp every returned chapter with the
requested `manga_id` and their own `source_id`; the result of the
KissManga `get_chapters` is always sorted by `number` ascending (its
numbers are never NaN), while the MangaDex result is sorted whenever no
chapter number is NaN — but not unconditionally, since
`parse::<f64>().unwrap_or(0.0)` accepts `"nan"` and the
`partial_cmp(..).unwrap_or(Equal)` comparator leaves NaN entries where
they stand (see the counterexample). -/
theorem get_chapters_sorted_fields
    (fuel : Nat) (feed : Nat → Except Err MDChapterListResponse)
    (mangaId : String) (chs : List Chapter)
    (hmd : mdFetchAllChapters fuel feed mangaId = some (.ok chs))
    (items : List (String × String)) (kid : String) :
    ((∀ c ∈ chs, c.manga_id = mangaId ∧ c.source_id = "mgd") ∧
      ((∀ c ∈ chs, c.number ≠ F64.nan) → sortedByNumber chs = true)) ∧
    ((∀ c ∈ kmGetChapters items kid,
        c.manga_id = kid ∧ c.source_id = "kmg" ∧ c.number ≠ F64.nan) ∧
      sortedByNumber (kmGetChapters items kid) = true) :=
  ⟨⟨mdFetchAllChapters_fields hmd, mdFetchAllChapters_sorted hmd⟩,
    kmGetChapters_props items kid⟩

set_option maxRecDepth 10000 in
/-- Witness for C3 at a two-chapter MangaDex feed and two KissManga
anchors: the hypothesis holds and both adapters return sorted,
correctly stamped chapters. -/
theorem get_chapters_sorted_fields_witness :
    mdFetchAllChapters 1 c3wFeed "m" = some (.ok c3wOut) ∧
    (((∀ c ∈ c3wOut, c.manga_id = "m" ∧ c.source_id = "mgd") ∧
        ((∀ c ∈ c3wOut, c.number ≠ F64.nan) → sortedByNumber c3wOut = true)) ∧
      ((∀ c ∈ kmGetChapters c3wItems "k",
          c.manga_id = "k" ∧ c.source_id = "kmg" ∧ c.number ≠ F64.nan) ∧
        sortedByNumber (kmGetChapters c3wItems "k") = true)) :=
  ⟨by decide, get_chapters_sorted_fields 1 c3wFeed "m" c3wOut (by decide) c3wItems "k"⟩

set_option maxRecDepth 10000 in
/-- C3 counterexample: on a feed whose chapters carry `"2"`, `"nan"`,
`"1"`, MangaDex `fetch_all_chapters` returns `[2, nan, 1]`, which is
not sorted by `number` ascending — and no permutation of it is, so the
unconditional sortedness claim is unsalvageable for this output. -/
theorem get_chapters_sorted_cex :
    mdFetchAllChapters 1 c3Feed "m" = some (.ok c3Out) ∧
    sortedByNumber c3Out = false ∧
    (allPerms c3Out).all (fun l => !(sortedByNumber l)) = true := by
  decide

end Tosho
